import Mathlib

/-!
# clockify-reporter: a shallow embedding and its verified properties

The development follows the two source files of the repository:

* `http_client/http_client.go`: the `HttpClient` wrapper (`Request` and the six convenience
  operations `Head`, `Get`, `Post`, `Put`, `Patch`, `Delete`);
* `main.go`: the API accessors (`getAllWorkspaces`, `getCurrentUser`, `getTimeEntries`),
  `getPreferredWorkspaceId`, and the body of `main` (day window, deduplication loop, sort, print).

Go values are embedded as follows.

* `string` is `String`, `[]byte` is `Option (List UInt8)` (`none` is the nil slice, `some bs` a
  non-nil slice holding `bs`), `int` is `Int`; where the program computes with integers that can
  leave the 64-bit range (the day window), every operation is wrapped to 64 bits.
* `(T, error)` results are `Except Error T`.
* `http.Header` (a Go `map[string][]string`) is an association list; a well-formed map has
  pairwise distinct keys. `*http.Header` is an `Option`.
* What the program obtains from outside the repository (configuration values, `strings.ToUpper`,
  the error of `http.NewRequest`, `json.Unmarshal`) is carried explicitly in the record `Env`;
  the transport is the field `Do` of `HttpClient`, and the value of `time.Now()`, with the
  zone rules of the machine as its location, is an argument of the day-window functions.
* The library functions whose behaviour decides a property (`sort.SliceStable`, and `Date`,
  `AddDate`, `Format` of package `time`) are embedded after the Go library source.
-/

namespace ClockifyReporter

/-! ## Data model of `main.go` -/

/-- The anonymous struct `HourlyRate` of `Workspace`. -/
structure HourlyRate where
  Amount : Int
  Currency : String
  deriving DecidableEq, Repr

/-- The struct `Workspace` (`main.go`); the untyped JSON fields `Memberships` and
`WorkspaceSettings` are never read by the program and are left out. -/
structure Workspace where
  ID : String
  Name : String
  HourlyRate : HourlyRate
  ImageURL : String
  FeatureSubscriptionType : String
  deriving DecidableEq, Repr

/-- The struct `User` (`main.go`); the untyped JSON fields `Memberships`, `Settings` and
`CustomFields` are left out. -/
structure User where
  ID : String
  Email : String
  Name : String
  ProfilePicture : String
  ActiveWorkspace : String
  DefaultWorkspace : String
  Status : String
  deriving DecidableEq, Repr

/-- The anonymous struct `TimeInterval` of `TimeEntry`. -/
structure TimeInterval where
  Start : String
  End : String
  Duration : String
  deriving DecidableEq, Repr

/-- The struct `TimeEntry` (`main.go`); the untyped JSON field `CustomFieldValues` is left out,
and the field `Type` is spelled `EntryType` (`Type` is reserved in Lean). -/
structure TimeEntry where
  ID : String
  Description : String
  TagIds : List String
  UserId : String
  Billable : Bool
  TaskId : String
  ProjectId : String
  TimeInterval : TimeInterval
  WorkspaceId : String
  IsLocked : Bool
  EntryType : String
  KioskId : String
  deriving DecidableEq, Repr

/-! ## `getPreferredWorkspaceId` (`main.go`, lines 136-144) -/

/-- The loop `for _, w := range wrkspcs { if w.Name == workspaceName { return w.ID } }` followed
by `return ""`. -/
def getPreferredWorkspaceId : List Workspace → String → String
  | [], _ => ""
  | w :: rest, workspaceName =>
    if w.Name = workspaceName then w.ID else getPreferredWorkspaceId rest workspaceName

/-! ## The deduplication loop of `main` (`main.go`, lines 182-197) -/

/-- The inner loop `for _, dup := range taskList { if dup == entry.Description { ... break } }`:
the value of `hasDuplicate` after it. -/
def hasDuplicate : List String → String → Bool
  | [], _ => false
  | dup :: rest, description => if dup = description then true else hasDuplicate rest description

/-- One iteration of the outer loop: `continue` when `hasDuplicate`, otherwise
`taskList = append(taskList, entry.Description)`. -/
def dedupStep (taskList : List String) (entry : TimeEntry) : List String :=
  if hasDuplicate taskList entry.Description then taskList
  else taskList ++ [entry.Description]

/-- The whole loop, started from `taskList := []string{}`. -/
def buildTaskList (timeEntries : List TimeEntry) : List String :=
  timeEntries.foldl dedupStep []

/-! ## `http_client/http_client.go` -/

/-- A Go `error` value, identified by its message. -/
abbrev Error := String

/-- A byte of a `[]byte`. -/
abbrev Byte := UInt8

/-- The type `http.Header`, a Go `map[string][]string`: the entries of the map, in the order a
`range` visits them. A well-formed map has no key twice, see `Header.WF`. -/
abbrev Header := List (String × List String)

/-- The keys of a header map. -/
def Header.keys (h : Header) : List String := h.map Prod.fst

/-- A header map is well formed when no key occurs twice, as in every Go map. -/
def Header.WF (h : Header) : Prop := (Header.keys h).Nodup

instance (h : Header) : Decidable (Header.WF h) := by
  unfold Header.WF
  infer_instance

/-- The map read `v, ok := h[key]`: `some v` when the key is present. -/
def Header.get? : Header → String → Option (List String)
  | [], _ => none
  | (k, v) :: rest, key => if k = key then some v else Header.get? rest key

/-- The map write `h[key] = val`: the entry of `key` is replaced, or added when absent. -/
def Header.set : Header → String → List String → Header
  | [], key, val => [(key, val)]
  | (k, v) :: rest, key, val =>
    if k = key then (key, val) :: rest else (k, v) :: Header.set rest key val

/-- The struct `HTTPResponse`. -/
structure HTTPResponse where
  Status : Int
  Headers : Header
  Body : List Byte
  deriving DecidableEq, Repr

/-- The value `httpReq` that `Request` hands to the transport: the three arguments given to
`http.NewRequest` (for `Body`, `none` is the nil `io.Reader` and `some bs` is
`bytes.NewBuffer(bs)`, a reader that yields exactly `bs`), and the field `Header` that `Request`
assigns afterwards. -/
structure HttpReq where
  Method : String
  URL : String
  Body : Option (List Byte)
  Header : Header
  deriving DecidableEq, Repr

/-- What the transport hands back: the `*http.Response` fields that `Request` reads, with `Body`
the outcome of `ioutil.ReadAll(resp.Body)`. -/
structure Resp where
  StatusCode : Int
  Header : Header
  Body : Except Error (List Byte)

/-- What the program takes from outside the repository. -/
structure Env where
  /-- The value `viper.GetString("clockify.apiKey")`. -/
  apiKey : String
  /-- The value `viper.GetString("clockify.urlBaseEndpoint")`. -/
  urlBaseEndpoint : String
  /-- The function `strings.ToUpper`. -/
  ToUpper : String → String
  /-- The error of `http.NewRequest(method, url, _)`, if any (invalid method, unparsable URL). -/
  newRequestError : String → String → Option Error
  /-- The call `json.Unmarshal(body, &wrkspc)` with `wrkspc []Workspace`. -/
  unmarshalWorkspaces : List Byte → Except Error (List Workspace)
  /-- The call `json.Unmarshal(body, &user)` with `user User`. -/
  unmarshalUser : List Byte → Except Error User
  /-- The call `json.Unmarshal(body, &timeEntries)` with `timeEntries []TimeEntry`. -/
  unmarshalTimeEntries : List Byte → Except Error (List TimeEntry)

/-- The struct `HttpClient`: its `httpHttpClient` is used through `Do` only. -/
structure HttpClient where
  /-- The call `c.httpHttpClient.Do(httpReq)`. -/
  Do : HttpReq → Except Error Resp

/-- The literal `h` of `Request` (lines 49-53). -/
def defaultHeaders (env : Env) : Header :=
  [("Content-Type", ["application/json"]),
   ("User-Agent", ["Clockify-Reporter"]),
   ("X-Api-Key", [env.apiKey])]

/-- Lines 55-59 of `Request`: `if headers != nil { for key, val := range *headers { h[key] = val } }`. -/
def mergeHeaders (h : Header) (headers : Option Header) : Header :=
  match headers with
  | none => h
  | some hs => hs.foldl (fun acc kv => Header.set acc kv.1 kv.2) h

/-- The literal `reqNeedPayloads` of `Request` (lines 61-66). -/
def reqNeedPayloads : List (String × Bool) :=
  [("POST", true), ("PUT", true), ("PATCH", true), ("DELETE", true)]

/-- The read `reqNeedPayloads[reqType]` of a `map[string]bool`: `false` for a missing key. -/
def reqNeedPayloadsAt (reqType : String) : Bool :=
  (reqNeedPayloads.lookup reqType).getD false

/-- Lines 68-71 of `Request`, with `reqType` already upper-cased: the reader `reqPayloads`. -/
def reqPayloads (reqType : String) (payloads : Option (List Byte)) : Option (List Byte) :=
  if reqNeedPayloadsAt reqType && payloads.isSome then payloads else none

/-- Lines 49-78 of `Request`: the request that is then handed to the transport, or the error of
`http.NewRequest`. -/
def buildRequest (env : Env) (reqType url : String) (payloads : Option (List Byte))
    (headers : Option Header) : Except Error HttpReq :=
  let h := mergeHeaders (defaultHeaders env) headers
  let reqType := env.ToUpper reqType
  let body := reqPayloads reqType payloads
  match env.newRequestError reqType url with
  | some err => .error err
  | none => .ok { Method := reqType, URL := url, Body := body, Header := h }

/-- Lines 80-95 of `Request`: send, read the whole body, wrap up. -/
def sendRequest (c : HttpClient) (httpReq : HttpReq) : Except Error HTTPResponse :=
  match c.Do httpReq with
  | .error err => .error err
  | .ok resp =>
    match resp.Body with
    | .error err => .error err
    | .ok body => .ok { Status := resp.StatusCode, Headers := resp.Header, Body := body }

/-- The method `HttpClient.Request`. -/
def HttpClient.Request (env : Env) (c : HttpClient) (reqType url : String)
    (payloads : Option (List Byte)) (headers : Option Header) : Except Error HTTPResponse :=
  match buildRequest env reqType url payloads headers with
  | .error err => .error err
  | .ok httpReq => sendRequest c httpReq

/-- The header set `h` of `Head` and `Get`: the caller's when given, else `Cache-Control`. -/
def readHeaders (headers : Option Header) : Header :=
  match headers with
  | some hs => hs
  | none => [("Cache-Control", ["no-cache"])]

/-- The header set `h` of `Post`, `Put`, `Patch`, `Delete`: the caller's when given, else
`Content-Type`. -/
def writeHeaders (headers : Option Header) : Header :=
  match headers with
  | some hs => hs
  | none => [("Content-Type", ["application/json"])]

/-- The method `HttpClient.Head`. -/
def HttpClient.Head (env : Env) (c : HttpClient) (url : String) (headers : Option Header) :
    Except Error HTTPResponse :=
  match c.Request env "HEAD" url none (some (readHeaders headers)) with
  | .error err => .error err
  | .ok r => .ok r

/-- The method `HttpClient.Get`. -/
def HttpClient.Get (env : Env) (c : HttpClient) (url : String) (headers : Option Header) :
    Except Error HTTPResponse :=
  match c.Request env "GET" url none (some (readHeaders headers)) with
  | .error err => .error err
  | .ok r => .ok r

/-- The method `HttpClient.Post`. -/
def HttpClient.Post (env : Env) (c : HttpClient) (url : String) (payloads : Option (List Byte))
    (headers : Option Header) : Except Error HTTPResponse :=
  match c.Request env "POST" url payloads (some (writeHeaders headers)) with
  | .error err => .error err
  | .ok r => .ok r

/-- The method `HttpClient.Put`. -/
def HttpClient.Put (env : Env) (c : HttpClient) (url : String) (payloads : Option (List Byte))
    (headers : Option Header) : Except Error HTTPResponse :=
  match c.Request env "PUT" url payloads (some (writeHeaders headers)) with
  | .error err => .error err
  | .ok r => .ok r

/-- The method `HttpClient.Patch`. -/
def HttpClient.Patch (env : Env) (c : HttpClient) (url : String) (payloads : Option (List Byte))
    (headers : Option Header) : Except Error HTTPResponse :=
  match c.Request env "PATCH" url payloads (some (writeHeaders headers)) with
  | .error err => .error err
  | .ok r => .ok r

/-- The method `HttpClient.Delete`. -/
def HttpClient.Delete (env : Env) (c : HttpClient) (url : String)
    (payloads : Option (List Byte)) (headers : Option Header) : Except Error HTTPResponse :=
  match c.Request env "DELETE" url payloads (some (writeHeaders headers)) with
  | .error err => .error err
  | .ok r => .ok r

/-! ## The API accessors of `main.go` (lines 79-134) -/

/-- The function `getAllWorkspaces`. -/
def getAllWorkspaces (env : Env) (client : HttpClient) : Except Error (List Workspace) :=
  match client.Get env (env.urlBaseEndpoint ++ "/workspaces") none with
  | .error err => .error err
  | .ok res =>
    if res.Status ≠ 200 then .error "failed get workspaces, got non 200 status"
    else
      match env.unmarshalWorkspaces res.Body with
      | .error err => .error err
      | .ok wrkspc => .ok wrkspc

/-- The function `getCurrentUser`. -/
def getCurrentUser (env : Env) (client : HttpClient) : Except Error User :=
  match client.Get env (env.urlBaseEndpoint ++ "/user") none with
  | .error err => .error err
  | .ok res =>
    if res.Status ≠ 200 then .error "failed get user, got non 200 status"
    else
      match env.unmarshalUser res.Body with
      | .error err => .error err
      | .ok user => .ok user

/-- The URL that `getTimeEntries` requests. -/
def timeEntriesUrl (env : Env) (workspaceId userId start stop : String) : String :=
  env.urlBaseEndpoint ++ "/workspaces/" ++ workspaceId ++ "/user/" ++ userId ++
    "/time-entries?start=" ++ start ++ "&end=" ++ stop

/-- The function `getTimeEntries` (its parameter `end` is spelled `stop`). -/
def getTimeEntries (env : Env) (client : HttpClient) (workspaceId userId start stop : String) :
    Except Error (List TimeEntry) :=
  match client.Get env (timeEntriesUrl env workspaceId userId start stop) none with
  | .error err => .error err
  | .ok res =>
    if res.Status ≠ 200 then .error "failed get time-entries, got non 200 status"
    else
      match env.unmarshalTimeEntries res.Body with
      | .error err => .error err
      | .ok timeEntries => .ok timeEntries

/-- Upper-casing of the ASCII letters, character by character. -/
def asciiUpper (s : String) : String := String.mk (s.data.map Char.toUpper)

/-- An `Env` whose `ToUpper` is `asciiUpper`, for evaluating the definitions. -/
def sampleEnv : Env where
  apiKey := "k-123"
  urlBaseEndpoint := "https://api.clockify.me/api/v1"
  ToUpper := asciiUpper
  newRequestError := fun _ _ => none
  unmarshalWorkspaces := fun _ => .ok []
  unmarshalUser := fun _ => .error "unexpected end of JSON input"
  unmarshalTimeEntries := fun _ => .ok []

/-- A caller header map that overrides `Content-Type` and adds a key of its own. -/
def sampleCallerHeaders : Header :=
  [("Content-Type", ["text/plain"]), ("X-Trace", ["1", "2"])]

/-- The request `Request` builds for verb `post` under `sampleEnv` and `sampleCallerHeaders`. -/
def sampleMergedReq : HttpReq where
  Method := "POST"
  URL := "https://h/x"
  Body := none
  Header := [("Content-Type", ["text/plain"]), ("User-Agent", ["Clockify-Reporter"]),
             ("X-Api-Key", ["k-123"]), ("X-Trace", ["1", "2"])]

/-- A transport that answers every request with the given status and body. -/
def sampleClient (status : Int) (body : List Byte) : HttpClient where
  Do := fun _ => .ok { StatusCode := status, Header := [], Body := .ok body }

/-! ## `sort.SliceStable` as `main` calls it (`main.go`, lines 200-202)

The Go library function `sort.SliceStable(x, less)` runs `stable_func` of package `sort` on the
slice, with `less` and the swap of two positions as its only access to it: insertion sort on
blocks of 20 positions, then `symMerge_func` on neighbouring blocks of doubling size. The
functions below follow that code; `less` receives the current slice contents, as a Go closure
over the slice would see them. Loops whose trip count is not fixed up front carry a fuel
argument; every call site supplies at least as much fuel as the loop can use. -/

section StableSort
variable {α : Type}

/-- The swap `data.Swap(i, j)` of two positions of the slice. -/
def swap (data : List α) (i j : Nat) : List α :=
  match data[i]?, data[j]? with
  | some x, some y => (data.set i y).set j x
  | _, _ => data

/-- The inner loop of `insertionSort_func`:
`for j := i; j > a && data.Less(j, j-1); j-- { data.Swap(j, j-1) }`, entered with `j`. -/
def insertionInner (less : List α → Nat → Nat → Bool) (a : Nat) : Nat → List α → List α
  | 0, data => data
  | j + 1, data =>
    if j + 1 > a && less data (j + 1) j then insertionInner less a j (swap data (j + 1) j)
    else data

/-- The function `insertionSort_func(data, a, b)`: `for i := a + 1; i < b; i++ { ... }`. -/
def insertionSort_func (less : List α → Nat → Nat → Bool) (data : List α) (a b : Nat) :
    List α :=
  (List.range' (a + 1) (b - (a + 1))).foldl (fun d i => insertionInner less a i d) data

/-- The function `swapRange_func(data, a, b, n)`:
`for i := 0; i < n; i++ { data.Swap(a+i, b+i) }`. -/
def swapRange_func (data : List α) (a b n : Nat) : List α :=
  (List.range' 0 n).foldl (fun d i => swap d (a + i) (b + i)) data

/-- The loop `for i != j { ... }` of `rotate_func` and the final `swapRange_func` call. -/
def rotateLoop (m : Nat) : Nat → List α → Nat → Nat → List α
  | 0, data, _, _ => data
  | fuel + 1, data, i, j =>
    if i ≠ j then
      if i > j then rotateLoop m fuel (swapRange_func data (m - i) m j) (i - j) j
      else rotateLoop m fuel (swapRange_func data (m - i) (m + j - i) i) i (j - i)
    else swapRange_func data (m - i) m i

/-- The function `rotate_func(data, a, m, b)`. -/
def rotate_func (data : List α) (a m b : Nat) : List α :=
  rotateLoop m (b - a + 1) data (m - a) (b - m)

/-- The binary search loop of `symMerge_func`:
`for i < j { h := int(uint(i+j) >> 1); if p(h) { i = h + 1 } else { j = h } }`; its result is the
final `i`. -/
def searchLoop (p : Nat → Bool) : Nat → Nat → Nat → Nat
  | 0, i, _ => i
  | fuel + 1, i, j =>
    if i < j then
      if p ((i + j) / 2) then searchLoop p fuel ((i + j) / 2 + 1) j
      else searchLoop p fuel i ((i + j) / 2)
    else i

/-- The loop `for k := m; k > i; k-- { data.Swap(k, k-1) }`, entered with `k`. -/
def swapDown (i : Nat) : Nat → List α → List α
  | 0, data => data
  | k + 1, data => if k + 1 > i then swapDown i k (swap data (k + 1) k) else data

/-- The function `symMerge_func(data, a, m, b)`. -/
def symMerge_func (less : List α → Nat → Nat → Bool) : Nat → List α → Nat → Nat → Nat → List α
  | 0, data, _, _, _ => data
  | fuel + 1, data, a, m, b =>
    if m - a = 1 then
      let i := searchLoop (fun h => less data h a) (b - m + 1) m b
      (List.range' a (i - 1 - a)).foldl (fun d k => swap d k (k + 1)) data
    else if b - m = 1 then
      let i := searchLoop (fun h => !less data m h) (m - a + 1) a m
      swapDown i m data
    else
      let mid := (a + b) / 2
      let n := mid + m
      let start := if m > mid then n - b else a
      let r := if m > mid then mid else m
      let p := n - 1
      let start := searchLoop (fun c => !less data (p - c) c) (r - start + 1) start r
      let stop := n - start
      let data := if start < m && m < stop then rotate_func data start m stop else data
      let data :=
        if a < start && start < mid then symMerge_func less fuel data a start mid else data
      if mid < stop && stop < b then symMerge_func less fuel data mid stop b else data

/-- The first loop of `stable_func` and the call after it:
`for b <= n { insertionSort_func(data, a, b); a = b; b += blockSize }`,
`insertionSort_func(data, a, n)`. -/
def insertBlocks (less : List α → Nat → Nat → Bool) (n blockSize : Nat) :
    Nat → List α → Nat → Nat → List α
  | 0, data, a, _ => insertionSort_func less data a n
  | fuel + 1, data, a, b =>
    if b ≤ n then
      insertBlocks less n blockSize fuel (insertionSort_func less data a b) b (b + blockSize)
    else insertionSort_func less data a n

/-- The inner loop of the second loop of `stable_func` and the `if` after it:
`for b <= n { symMerge_func(data, a, a+blockSize, b); a = b; b += 2 * blockSize }`,
`if m := a + blockSize; m < n { symMerge_func(data, a, m, n) }`. -/
def mergePass (less : List α → Nat → Nat → Bool) (n blockSize : Nat) :
    Nat → List α → Nat → Nat → List α
  | 0, data, _, _ => data
  | fuel + 1, data, a, b =>
    if b ≤ n then
      mergePass less n blockSize fuel
        (symMerge_func less (n + 1) data a (a + blockSize) b) b (b + 2 * blockSize)
    else if a + blockSize < n then symMerge_func less (n + 1) data a (a + blockSize) n
    else data

/-- The second loop of `stable_func`: `for blockSize < n { ...; blockSize *= 2 }`. -/
def mergeLoop (less : List α → Nat → Nat → Bool) (n : Nat) : Nat → List α → Nat → List α
  | 0, data, _ => data
  | fuel + 1, data, blockSize =>
    if blockSize < n then
      mergeLoop less n fuel (mergePass less n blockSize (n + 1) data 0 (2 * blockSize))
        (blockSize * 2)
    else data

/-- The function `stable_func(data, n)`. -/
def stable_func (less : List α → Nat → Nat → Bool) (data : List α) (n : Nat) : List α :=
  mergeLoop less n (n + 1) (insertBlocks less n 20 (n + 1) data 0 20) 20

/-- The function `sort.SliceStable(x, less)`. -/
def SliceStable (x : List α) (less : List α → Nat → Nat → Bool) : List α :=
  stable_func less x x.length

/-- The list `l` cut into blocks of `B` elements (the last one possibly shorter), each block
reversed in place: the state of the slice between the passes of `stable_func` when the
comparator is the one of `main`. -/
def revChunks (B : Nat) (l : List α) : List α :=
  if B = 0 ∨ l.length ≤ B then l.reverse
  else (l.take B).reverse ++ revChunks B (l.drop B)
termination_by l.length
decreasing_by
  simp only [List.length_drop]
  omega

end StableSort

/-- The comparator of `main`: `func(i, j int) bool { return i > j }`; it does not read the
slice. -/
def taskLess : List String → Nat → Nat → Bool := fun _ i j => decide (i > j)

/-- A time entry with the given description and every other field empty. -/
def entryOf (description : String) : TimeEntry where
  ID := ""
  Description := description
  TagIds := []
  UserId := ""
  Billable := false
  TaskId := ""
  ProjectId := ""
  TimeInterval := { Start := "", End := "", Duration := "" }
  WorkspaceId := ""
  IsLocked := false
  EntryType := ""
  KioskId := ""

/-- Lines 200-205 of `main`: the lines printed after the header, one `fmt.Println("-", task)`
for each element of the task list after `sort.SliceStable`. -/
def printedTasks (timeEntries : List TimeEntry) : List String :=
  (SliceStable (buildTaskList timeEntries) taskLess).map (fun task => "- " ++ task)

/-! ## The day window of `main` (`main.go`, lines 171-174)

The three lines compose functions of the Go package `time`: `Now`, `AddDate`, `UTC`, `Year`,
`Month`, `Day`, `Nanosecond`, `Location`, `Date` and `Format`. The definitions below follow the
package (`time.go`, `format.go`, `zoneinfo.go`): a `Time` is a count of seconds since the Unix
epoch, a nanosecond within the second and a `Location`; calendar fields are computed from the
"absolute" second count by cutting off 400-, 100-, 4- and 1-year cycles.

Go computes these with 64-bit integers that wrap around (`int` is taken to be 64 bits wide):
a value of type `int` or `int64` is kept in `[-2^63, 2^63)` by `wrapI64`, a value of type
`uint64` in `[0, 2^64)` by `wrapU64`, after every operation that can leave the range. The
operations of `absDate` and `absClock` cannot: they only divide and subtract from a `uint64`.
Apart from the one in `formatZone`, divisions are applied to non-negative numerators only,
where Go's truncating `/` and `%` agree with those of `Int`. The zone rules of a `Location` are given as its list of transitions. -/

/-- The value of a `uint64` computation: the result modulo `2^64`. -/
def wrapU64 (x : Int) : Int := x % 18446744073709551616

/-- The value of an `int64` (or `int`) computation: the result modulo `2^64`, taken in
`[-2^63, 2^63)`. -/
def wrapI64 (x : Int) : Int :=
  (x + 9223372036854775808) % 18446744073709551616 - 9223372036854775808

/-- The constant `alpha` of `zoneinfo.go`: the start of a zone period unbounded below. -/
def alpha : Int := -9223372036854775808

/-- The constant `omega` of `zoneinfo.go`: the end of a zone period unbounded above. -/
def omegaSec : Int := 9223372036854775807

/-- The type `time.Location`: the offset (seconds east of UTC) in use before the first
transition, and the transitions `(when, offset)`, `when` the Unix time from which `offset` is in
use, in increasing order of `when`. -/
structure Location where
  first : Int
  tx : List (Int × Int)
  deriving DecidableEq, Repr

/-- The location `time.UTC`. -/
def UTC : Location := { first := 0, tx := [] }

/-- The search of `Location.lookup` for the last transition at or before `sec`, as a scan of the
transitions in order, with the zone found so far. -/
def lookupFrom (sec : Int) : List (Int × Int) → Int → Int → Int × Int × Int
  | [], offset, start => (offset, start, omegaSec)
  | (when, next) :: rest, offset, start =>
    if sec < when then (offset, start, when) else lookupFrom sec rest next when

/-- The method `Location.lookup(sec)`: the offset in use at Unix time `sec`, and the Unix times
at which that zone period starts and ends. -/
def Location.lookup (l : Location) (sec : Int) : Int × Int × Int :=
  lookupFrom sec l.tx l.first alpha

/-- The type `time.Time`: Unix seconds (an `int64`), nanoseconds within the second
(`0 ≤ nsec < 1e9`), and location. -/
structure Time where
  unix : Int
  nsec : Int
  loc : Location
  deriving DecidableEq, Repr

def secondsPerMinute : Int := 60
def secondsPerHour : Int := 60 * secondsPerMinute
def secondsPerDay : Int := 24 * secondsPerHour
def daysPer400Years : Int := 365 * 400 + 97
def daysPer100Years : Int := 365 * 100 + 24
def daysPer4Years : Int := 365 * 4 + 1

/-- The constant `absoluteZeroYear`: the year of the absolute epoch. -/
def absoluteZeroYear : Int := -292277022399

/-- The constant `unixToInternal + internalToAbsolute`: the absolute second count of the Unix
epoch. -/
def unixToAbsolute : Int := 9223372028715321600

/-- The table `daysBefore`: `daysBefore i` is the number of days in a non-leap year before
month `i + 1`. -/
def daysBefore (i : Int) : Int :=
  if i = 0 then 0
  else if i = 1 then 31
  else if i = 2 then 59
  else if i = 3 then 90
  else if i = 4 then 120
  else if i = 5 then 151
  else if i = 6 then 181
  else if i = 7 then 212
  else if i = 8 then 243
  else if i = 9 then 273
  else if i = 10 then 304
  else if i = 11 then 334
  else 365

/-- The function `isLeap`. -/
def isLeap (year : Int) : Bool :=
  year % 4 = 0 && (year % 100 ≠ 0 || year % 400 = 0)

/-- The first `if` of `norm(hi, lo, base)`:
`if lo < 0 { n := (-lo-1)/base + 1; hi -= n; lo += n * base }`. -/
def normLow (hi lo base : Int) : Int × Int :=
  if lo < 0 then
    (wrapI64 (hi - wrapI64 (wrapI64 (wrapI64 (-lo) - 1) / base + 1)),
     wrapI64 (lo + wrapI64 (wrapI64 (wrapI64 (wrapI64 (-lo) - 1) / base + 1) * base)))
  else (hi, lo)

/-- The function `norm(hi, lo, base)`: `lo` brought into `[0, base)`, the excess carried into
`hi`; its second `if` is `if lo >= base { n := lo / base; hi += n; lo -= n * base }`. -/
def norm (hi lo base : Int) : Int × Int :=
  if (normLow hi lo base).2 ≥ base then
    (wrapI64 ((normLow hi lo base).1 + (normLow hi lo base).2 / base),
     wrapI64 ((normLow hi lo base).2 - wrapI64 ((normLow hi lo base).2 / base * base)))
  else normLow hi lo base

/-- The method `Time.abs`: the absolute second count of the wall clock in the time's location,
`uint64(sec + (unixToInternal + internalToAbsolute))` after `sec += int64(offset)`. -/
def Time.abs (t : Time) : Int :=
  wrapU64 (wrapI64 (wrapI64 (t.unix + (t.loc.lookup t.unix).1) + unixToAbsolute))

/-- The year and the day within the year, from `absDate`: 400-, 100-, 4- and 1-year cycles are
cut off the day count in turn. -/
def absYearDay (abs : Int) : Int × Int :=
  let d := abs / secondsPerDay
  let n400 := d / daysPer400Years
  let d1 := d - daysPer400Years * n400
  let n100 := d1 / daysPer100Years - (d1 / daysPer100Years) / 4
  let d2 := d1 - daysPer100Years * n100
  let n4 := d2 / daysPer4Years
  let d3 := d2 - daysPer4Years * n4
  let n1 := d3 / 365 - (d3 / 365) / 4
  let yday := d3 - 365 * n1
  (400 * n400 + 100 * n100 + 4 * n4 + n1 + absoluteZeroYear, yday)

/-- The second half of `absDate`: month and day of the month from the year and the day within
it. -/
def monthDay (year yday : Int) : Int × Int :=
  if isLeap year && yday = 31 + 29 - 1 then (2, 29)
  else
    let day := if isLeap year && yday > 31 + 29 - 1 then yday - 1 else yday
    let month := day / 31
    let stop := daysBefore (month + 1)
    if day ≥ stop then (month + 1 + 1, day - stop + 1)
    else (month + 1, day - daysBefore month + 1)

/-- The function `absDate(abs, true)`: year, month and day. -/
def absDate (abs : Int) : Int × Int × Int :=
  let yd := absYearDay abs
  let md := monthDay yd.1 yd.2
  (yd.1, md.1, md.2)

/-- The function `absClock(abs)`: hour, minute and second. -/
def absClock (abs : Int) : Int × Int × Int :=
  let sec := abs % secondsPerDay
  let hour := sec / secondsPerHour
  let sec1 := sec - hour * secondsPerHour
  let min := sec1 / secondsPerMinute
  (hour, min, sec1 - min * secondsPerMinute)

/-- The method `Time.Date`. -/
def Time.Date (t : Time) : Int × Int × Int := absDate t.abs

/-- The method `Time.Clock`. -/
def Time.Clock (t : Time) : Int × Int × Int := absClock t.abs

/-- The method `Time.Year`. -/
def Time.Year (t : Time) : Int := t.Date.1

/-- The method `Time.Month`. -/
def Time.Month (t : Time) : Int := t.Date.2.1

/-- The method `Time.Day`. -/
def Time.Day (t : Time) : Int := t.Date.2.2

/-- The method `Time.Nanosecond`. -/
def Time.Nanosecond (t : Time) : Int := t.nsec

/-- The method `Time.Location`. -/
def Time.Location (t : Time) : Location := t.loc

/-- The method `Time.UTC`: the same instant with the location set to UTC. -/
def Time.UTC (t : Time) : Time := { t with loc := ClockifyReporter.UTC }

/-- The function `daysSinceEpoch(year)`: days from the absolute epoch to the start of `year`,
computed in `uint64` from `y := uint64(int64(year) - absoluteZeroYear)`. -/
def daysSinceEpoch (year : Int) : Int :=
  let y := wrapU64 (wrapI64 (year - absoluteZeroYear))
  let n400 := y / 400
  let y1 := y - 400 * n400
  let n100 := y1 / 100
  let y2 := y1 - 100 * n100
  let n4 := y2 / 4
  let y3 := y2 - 4 * n4
  wrapU64 (daysPer400Years * n400 + daysPer100Years * n100 + daysPer4Years * n4 + 365 * y3)

/-- The zone adjustment at the end of `time.Date`, for the second count `unix` of the wall
clock read as UTC: `if offset != 0 { utc := unix - offset; if utc < start || utc >= end
{ offset = lookup(utc) }; unix -= offset }`. -/
def zoneAdjust (loc : Location) (unix : Int) : Int :=
  if (loc.lookup unix).1 ≠ 0 then
    if wrapI64 (unix - (loc.lookup unix).1) < (loc.lookup unix).2.1 ||
        wrapI64 (unix - (loc.lookup unix).1) ≥ (loc.lookup unix).2.2 then
      wrapI64 (unix - (loc.lookup (wrapI64 (unix - (loc.lookup unix).1))).1)
    else wrapI64 (unix - (loc.lookup unix).1)
  else unix

/-- The function `time.Date(year, month, day, hour, min, sec, nsec, loc)`. -/
def Date (year month day hour min sec nsec : Int) (loc : Location) : Time :=
  let ym := norm year (wrapI64 (month - 1)) 12
  let year := ym.1
  let month := wrapI64 (ym.2 + 1)
  let sn := norm sec nsec 1000000000
  let ms := norm min sn.1 60
  let hm := norm hour ms.1 60
  let dh := norm day hm.1 24
  let d := wrapU64 (daysSinceEpoch year + daysBefore (month - 1) +
    (if isLeap year && decide (month ≥ 3) then 1 else 0) + wrapU64 (wrapI64 (dh.1 - 1)))
  let abs := wrapU64 (wrapU64 (d * secondsPerDay) +
    wrapU64 (wrapI64 (wrapI64 (wrapI64 (dh.2 * secondsPerHour) +
      wrapI64 (hm.2 * secondsPerMinute)) + ms.2)))
  let unix := wrapI64 (wrapI64 abs - unixToAbsolute)
  { unix := zoneAdjust loc unix, nsec := sn.2, loc := loc }

/-- The method `Time.AddDate(years, months, days)`. -/
def Time.AddDate (t : Time) (years months days : Int) : Time :=
  ClockifyReporter.Date (wrapI64 (t.Date.1 + years)) (wrapI64 (t.Date.2.1 + months))
    (wrapI64 (t.Date.2.2 + days)) t.Clock.1 t.Clock.2.1 t.Clock.2.2 t.nsec t.Location

/-- The character of a decimal digit. -/
def digitChar (d : Int) : Char := Char.ofNat (48 + d.toNat)

/-- The two decimal digits of a number below 100. -/
def twoDigits (u : Int) : String := String.mk [digitChar (u / 10), digitChar (u % 10)]

/-- The four decimal digits of a number below 10000. -/
def fourDigits (u : Int) : String :=
  String.mk [digitChar (u / 1000), digitChar (u / 100 % 10), digitChar (u / 10 % 10),
    digitChar (u % 10)]

/-- The digits `appendInt` writes for the magnitude `u`: the two fast paths of `format.go` for
widths 2 and 4, else the decimal digits zero-padded to `width`. -/
def appendDigits (u : Int) (width : Nat) : String :=
  if width = 2 ∧ u < 100 then twoDigits u
  else if width = 4 ∧ u < 10000 then fourDigits u
  else String.mk (List.replicate (width - (Nat.toDigits 10 u.toNat).length) '0' ++
    Nat.toDigits 10 u.toNat)

/-- The function `appendInt(b, x, width)` of `format.go`, as the text it appends: a minus sign
and the magnitude `uint(-x)` for a negative `x`. -/
def appendInt (x : Int) (width : Nat) : String :=
  if x < 0 then "-" ++ appendDigits (wrapU64 (-x)) width else appendDigits x width

/-- The zone suffix `Z07:00` of the layout: `zone := offset / 60`, a division that truncates
towards zero, then the sign and `zone/60`, `zone%60` of the magnitude. -/
def formatZone (offset : Int) : String :=
  if offset = 0 then "Z"
  else if Int.tdiv offset 60 < 0 then
    "-" ++ appendInt (-(Int.tdiv offset 60) / 60) 2 ++ ":" ++
      appendInt (-(Int.tdiv offset 60) % 60) 2
  else "+" ++ appendInt (Int.tdiv offset 60 / 60) 2 ++ ":" ++
    appendInt (Int.tdiv offset 60 % 60) 2

/-- The call `t.Format(time.RFC3339)`, layout `2006-01-02T15:04:05Z07:00`. -/
def Time.FormatRFC3339 (t : Time) : String :=
  appendInt t.Date.1 4 ++ "-" ++ appendInt t.Date.2.1 2 ++ "-" ++ appendInt t.Date.2.2 2 ++ "T" ++
    appendInt t.Clock.1 2 ++ ":" ++ appendInt t.Clock.2.1 2 ++ ":" ++ appendInt t.Clock.2.2 2 ++
    formatZone (t.loc.lookup t.unix).1

/-- Line 171 of `main`: `timeToGet := time.Now().AddDate(0, 0, *day).UTC()`, with `now` the
value of `time.Now()` and `day` the value of the flag `day`, which is added to the day of the
month (the usage text of the flag, `Day backward value`, notwithstanding). -/
def timeToGet (now : Time) (day : Int) : Time := (now.AddDate 0 0 day).UTC

/-- Line 173 of `main`, before `Format`. -/
def startTime (now : Time) (day : Int) : Time :=
  Date (timeToGet now day).Year (timeToGet now day).Month (timeToGet now day).Day 0 0 0
    (timeToGet now day).Nanosecond (timeToGet now day).Location

/-- Line 174 of `main`, before `Format`. -/
def endTime (now : Time) (day : Int) : Time :=
  Date (timeToGet now day).Year (timeToGet now day).Month (timeToGet now day).Day 23 59 59
    (timeToGet now day).Nanosecond (timeToGet now day).Location

/-- Line 173 of `main`: the string `startDay`. -/
def startDay (now : Time) (day : Int) : String := (startTime now day).FormatRFC3339

/-- Line 174 of `main`: the string `endDay`. -/
def endDay (now : Time) (day : Int) : String := (endTime now day).FormatRFC3339

/-- A model of the zone `America/New_York` around 2024: standard time (UTC-5), daylight time
(UTC-4) from 2024-03-10T07:00:00Z, standard time again from 2024-11-03T06:00:00Z. -/
def newYork : Location :=
  { first := -18000, tx := [(1710054000, -14400), (1730613600, -18000)] }

/-- A location whose offset never changes. -/
def fixedZone (offset : Int) : Location := { first := offset, tx := [] }

/-- The text `YYYY-MM-DDThh:mm:ssZ` of RFC 3339 for a date and a time of day in UTC. -/
def rfc3339UTC (year month day hour min sec : Int) : String :=
  fourDigits year ++ "-" ++ twoDigits month ++ "-" ++ twoDigits day ++ "T" ++
    twoDigits hour ++ ":" ++ twoDigits min ++ ":" ++ twoDigits sec ++ "Z"

/-- The instant 2024-11-02T23:30:00Z as `time.Now()` reports it on a machine whose local zone
is `newYork`: 19:30 on 2 November, daylight time. -/
def sampleNow : Time := { unix := 1730590200, nsec := 0, loc := newYork }

/-- The same instant on a machine whose local zone is UTC. -/
def sampleNowUTC : Time := { unix := 1730590200, nsec := 0, loc := UTC }

/-! ## Lemmas on the deduplication loop -/

theorem hasDuplicate_iff (taskList : List String) (s : String) :
    hasDuplicate taskList s = true ↔ s ∈ taskList := by
  induction taskList with
  | nil => simp [hasDuplicate]
  | cons d rest ih =>
    by_cases h : d = s
    · simp [hasDuplicate, h]
    · have h2 : ¬ s = d := fun e => h e.symm
      simp [hasDuplicate, h, h2, ih]

theorem dedupStep_nodup (taskList : List String) (entry : TimeEntry) (h : taskList.Nodup) :
    (dedupStep taskList entry).Nodup := by
  unfold dedupStep
  by_cases hd : hasDuplicate taskList entry.Description = true
  · simp [hd, h]
  · have hn : entry.Description ∉ taskList := fun hm => hd ((hasDuplicate_iff _ _).2 hm)
    rw [if_neg hd, List.nodup_append]
    refine ⟨h, List.nodup_singleton _, ?_⟩
    intro a ha hb
    simp at hb
    exact hn (hb ▸ ha)

theorem dedupStep_mem (taskList : List String) (entry : TimeEntry) (s : String) :
    s ∈ dedupStep taskList entry ↔ s ∈ taskList ∨ s = entry.Description := by
  unfold dedupStep
  by_cases hd : hasDuplicate taskList entry.Description = true
  · have hm := (hasDuplicate_iff _ _).1 hd
    rw [if_pos hd]
    constructor
    · exact Or.inl
    · rintro (h | h)
      · exact h
      · exact h ▸ hm
  · simp [hd]

theorem foldl_dedupStep_nodup (timeEntries : List TimeEntry) (acc : List String)
    (h : acc.Nodup) : (timeEntries.foldl dedupStep acc).Nodup := by
  induction timeEntries generalizing acc with
  | nil => simpa using h
  | cons e rest ih => exact ih _ (dedupStep_nodup acc e h)

theorem foldl_dedupStep_mem (timeEntries : List TimeEntry) (acc : List String) (s : String) :
    s ∈ timeEntries.foldl dedupStep acc ↔ s ∈ acc ∨ ∃ e ∈ timeEntries, e.Description = s := by
  induction timeEntries generalizing acc with
  | nil => simp
  | cons e rest ih =>
    rw [List.foldl_cons, ih, dedupStep_mem]
    constructor
    · rintro ((h | h) | ⟨x, hx, hxs⟩)
      · exact Or.inl h
      · exact Or.inr ⟨e, List.mem_cons_self _ _, h.symm⟩
      · exact Or.inr ⟨x, List.mem_cons_of_mem _ hx, hxs⟩
    · rintro (h | ⟨x, hx, hxs⟩)
      · exact Or.inl (Or.inl h)
      · rcases List.mem_cons.1 hx with rfl | hx
        · exact Or.inl (Or.inr hxs.symm)
        · exact Or.inr ⟨x, hx, hxs⟩

/-! ## Lemmas on header maps -/

theorem Header.get?_eq_none_of_not_mem (h : Header) (key : String)
    (hk : key ∉ Header.keys h) : Header.get? h key = none := by
  induction h with
  | nil => rfl
  | cons kv rest ih =>
    obtain ⟨k, v⟩ := kv
    simp only [Header.keys, List.map_cons, List.mem_cons, not_or] at hk
    have hne : ¬ k = key := fun e => hk.1 e.symm
    simp only [Header.get?, if_neg hne]
    exact ih hk.2

theorem Header.get?_set_same (h : Header) (key : String) (val : List String) :
    Header.get? (Header.set h key val) key = some val := by
  induction h with
  | nil => simp [Header.set, Header.get?]
  | cons kv rest ih =>
    obtain ⟨k, v⟩ := kv
    by_cases hk : k = key
    · simp [Header.set, Header.get?, hk]
    · simp [Header.set, Header.get?, hk, ih]

theorem Header.get?_set_other (h : Header) (key other : String) (val : List String)
    (hne : key ≠ other) :
    Header.get? (Header.set h key val) other = Header.get? h other := by
  induction h with
  | nil => simp [Header.set, Header.get?, hne]
  | cons kv rest ih =>
    obtain ⟨k, v⟩ := kv
    by_cases hk : k = key
    · subst hk
      simp [Header.set, Header.get?, hne]
    · by_cases ho : k = other
      · subst ho
        simp [Header.set, Header.get?, hk]
      · simp [Header.set, Header.get?, hk, ho, ih]

theorem Header.mem_keys_set (h : Header) (key : String) (val : List String) (x : String) :
    x ∈ Header.keys (Header.set h key val) ↔ x ∈ Header.keys h ∨ x = key := by
  induction h with
  | nil => simp [Header.set, Header.keys]
  | cons kv rest ih =>
    obtain ⟨k, v⟩ := kv
    by_cases hk : k = key
    · subst hk
      simp only [Header.set, Header.keys, if_true, List.map_cons, List.mem_cons]
      tauto
    · have ih2 : x ∈ List.map Prod.fst (Header.set rest key val) ↔
          x ∈ List.map Prod.fst rest ∨ x = key := ih
      simp only [Header.set, if_neg hk, Header.keys, List.map_cons, List.mem_cons, ih2]
      tauto

theorem Header.WF_set (h : Header) (key : String) (val : List String) (hwf : Header.WF h) :
    Header.WF (Header.set h key val) := by
  induction h with
  | nil => simp [Header.set, Header.WF, Header.keys]
  | cons kv rest ih =>
    obtain ⟨k, v⟩ := kv
    have hwf2 : k ∉ Header.keys rest ∧ Header.WF rest := by
      simpa [Header.WF, Header.keys] using hwf
    by_cases hk : k = key
    · subst hk
      simpa [Header.set, Header.WF, Header.keys] using hwf
    · have hnot : k ∉ Header.keys (Header.set rest key val) := by
        rw [Header.mem_keys_set]
        rintro (h1 | h1)
        · exact hwf2.1 h1
        · exact hk h1
      have hrec : Header.WF (Header.set rest key val) := ih hwf2.2
      simp only [Header.set, if_neg hk, Header.WF, Header.keys, List.map_cons, List.nodup_cons]
      exact ⟨hnot, hrec⟩

theorem mergeLoop_WF (hs : Header) (h : Header) (hwf : Header.WF h) :
    Header.WF (hs.foldl (fun acc kv => Header.set acc kv.1 kv.2) h) := by
  induction hs generalizing h with
  | nil => simpa using hwf
  | cons kv rest ih => exact ih _ (Header.WF_set h kv.1 kv.2 hwf)

theorem mergeLoop_get? (hs : Header) (h : Header) (hwf : Header.WF hs) (key : String) :
    Header.get? (hs.foldl (fun acc kv => Header.set acc kv.1 kv.2) h) key =
      (Header.get? hs key).orElse (fun _ => Header.get? h key) := by
  induction hs generalizing h with
  | nil => simp [Header.get?]
  | cons kv rest ih =>
    obtain ⟨k, v⟩ := kv
    have hwf2 : k ∉ Header.keys rest ∧ Header.WF rest := by
      simpa [Header.WF, Header.keys] using hwf
    rw [List.foldl_cons, ih _ hwf2.2]
    by_cases hk : k = key
    · subst hk
      simp [Header.get?, Header.get?_eq_none_of_not_mem rest k hwf2.1, Header.get?_set_same]
    · simp [Header.get?, hk, Header.get?_set_other h k key v hk]

theorem defaultHeaders_WF (env : Env) : Header.WF (defaultHeaders env) := by
  simp [Header.WF, Header.keys, defaultHeaders]

theorem defaultHeaders_get? (env : Env) (key : String) :
    Header.get? (defaultHeaders env) key =
      if key = "Content-Type" then some ["application/json"]
      else if key = "User-Agent" then some ["Clockify-Reporter"]
      else if key = "X-Api-Key" then some [env.apiKey]
      else none := by
  simp only [defaultHeaders, Header.get?, eq_comm]

theorem buildRequest_ok (env : Env) (reqType url : String) (payloads : Option (List Byte))
    (headers : Option Header) (httpReq : HttpReq)
    (h : buildRequest env reqType url payloads headers = .ok httpReq) :
    httpReq = { Method := env.ToUpper reqType, URL := url,
                Body := reqPayloads (env.ToUpper reqType) payloads,
                Header := mergeHeaders (defaultHeaders env) headers } := by
  unfold buildRequest at h
  cases hne : env.newRequestError (env.ToUpper reqType) url with
  | some err => simp [hne] at h
  | none =>
    simp only [hne] at h
    injection h with h
    exact h.symm

theorem reqNeedPayloadsAt_iff (reqType : String) :
    reqNeedPayloadsAt reqType = true ↔
      reqType = "POST" ∨ reqType = "PUT" ∨ reqType = "PATCH" ∨ reqType = "DELETE" := by
  unfold reqNeedPayloadsAt reqNeedPayloads
  by_cases h1 : reqType = "POST"
  · simp [h1, List.lookup]
  by_cases h2 : reqType = "PUT"
  · simp [h2, List.lookup]
  by_cases h3 : reqType = "PATCH"
  · simp [h3, List.lookup]
  by_cases h4 : reqType = "DELETE"
  · simp [h4, List.lookup]
  have e1 : (reqType == "POST") = false := beq_eq_false_iff_ne.2 h1
  have e2 : (reqType == "PUT") = false := beq_eq_false_iff_ne.2 h2
  have e3 : (reqType == "PATCH") = false := beq_eq_false_iff_ne.2 h3
  have e4 : (reqType == "DELETE") = false := beq_eq_false_iff_ne.2 h4
  simp [List.lookup, e1, e2, e3, e4, h1, h2, h3, h4]

theorem buildRequest_header_get? (env : Env) (reqType url : String)
    (payloads : Option (List Byte)) (headers : Option Header) (httpReq : HttpReq)
    (hwf : ∀ H, headers = some H → Header.WF H)
    (hreq : buildRequest env reqType url payloads headers = .ok httpReq) :
    Header.WF httpReq.Header ∧
    ∀ key : String, Header.get? httpReq.Header key =
      match headers.bind (fun H => Header.get? H key) with
      | some val => some val
      | none =>
        if key = "Content-Type" then some ["application/json"]
        else if key = "User-Agent" then some ["Clockify-Reporter"]
        else if key = "X-Api-Key" then some [env.apiKey]
        else none := by
  rw [buildRequest_ok env reqType url payloads headers httpReq hreq]
  cases headers with
  | none =>
    refine ⟨defaultHeaders_WF env, fun key => ?_⟩
    simp only [mergeHeaders, Option.bind]
    exact defaultHeaders_get? env key
  | some H =>
    refine ⟨mergeLoop_WF H _ (defaultHeaders_WF env), fun key => ?_⟩
    simp only [mergeHeaders, Option.bind]
    rw [mergeLoop_get? H _ (hwf H rfl) key, defaultHeaders_get? env key]
    cases Header.get? H key <;> rfl

/-! ## Lemmas on `sort.SliceStable` with the comparator of `main` -/

section StableSortLemmas
variable {α : Type}

theorem swap_cons_succ (a : α) (l : List α) (i j : Nat) :
    swap (a :: l) (i + 1) (j + 1) = a :: swap l i j := by
  unfold swap
  simp only [List.getElem?_cons_succ]
  cases l[i]? <;> cases l[j]? <;> simp

theorem swap_zero_split (mid q : List α) (x y : α) :
    swap (x :: (mid ++ y :: q)) 0 (mid.length + 1) = y :: (mid ++ x :: q) ∧
    swap (x :: (mid ++ y :: q)) (mid.length + 1) 0 = y :: (mid ++ x :: q) := by
  have h2 : (mid ++ y :: q)[mid.length]? = some y := by
    rw [List.getElem?_append_right (Nat.le_refl _)]
    simp
  constructor
  · unfold swap
    simp only [List.getElem?_cons_zero, List.getElem?_cons_succ, h2, List.set_cons_zero,
      List.set_cons_succ]
    rw [List.set_append_right _ _ (Nat.le_refl _)]
    simp
  · unfold swap
    simp only [List.getElem?_cons_zero, List.getElem?_cons_succ, h2, List.set_cons_zero,
      List.set_cons_succ]
    rw [List.set_append_right _ _ (Nat.le_refl _)]
    simp

theorem swap_split (p mid q : List α) (x y : α) :
    swap (p ++ x :: (mid ++ y :: q)) p.length (p.length + mid.length + 1) =
      p ++ y :: (mid ++ x :: q) ∧
    swap (p ++ x :: (mid ++ y :: q)) (p.length + mid.length + 1) p.length =
      p ++ y :: (mid ++ x :: q) := by
  induction p with
  | nil => simpa using swap_zero_split mid q x y
  | cons a p ih =>
    have e : (a :: p).length + mid.length + 1 = (p.length + mid.length + 1) + 1 := by
      simp only [List.length_cons]; omega
    rw [e]
    simp only [List.length_cons, List.cons_append, swap_cons_succ, ih.1, ih.2, and_self]

theorem swap_adjacent (p q : List α) (x y : α) :
    swap (p ++ x :: y :: q) (p.length + 1) p.length = p ++ y :: x :: q := by
  simpa using (swap_split p [] q x y).2

theorem swap_adjacent_up (p q : List α) (x y : α) :
    swap (p ++ x :: y :: q) p.length (p.length + 1) = p ++ y :: x :: q := by
  simpa using (swap_split p [] q x y).1

theorem insertionInner_moves_front (less : List α → Nat → Nat → Bool)
    (hless : ∀ d i j, less d i j = decide (i > j)) (p s q : List α) (x : α) :
    insertionInner less p.length (p.length + s.length) (p ++ (s ++ x :: q)) =
      p ++ x :: (s ++ q) := by
  induction s using List.reverseRecOn generalizing q with
  | nil =>
    simp only [List.length_nil, Nat.add_zero, List.nil_append]
    cases hp : p.length with
    | zero => rfl
    | succ n => simp [insertionInner]
  | append_singleton s y ih =>
    have e : p.length + (s ++ [y]).length = (p.length + s.length) + 1 := by simp; omega
    rw [e, insertionInner]
    have hc : (decide (p.length + s.length + 1 > p.length) &&
        less (p ++ (s ++ [y] ++ x :: q)) (p.length + s.length + 1) (p.length + s.length)) =
        true := by
      rw [hless]
      simp; omega
    rw [if_pos hc]
    have hsw : swap (p ++ (s ++ [y] ++ x :: q)) (p.length + s.length + 1) (p.length + s.length) =
        p ++ (s ++ x :: (y :: q)) := by
      have := swap_adjacent (p ++ s) q y x
      simpa using this
    rw [hsw, ih (y :: q)]
    simp

theorem insertionLoop_reverses (less : List α → Nat → Nat → Bool)
    (hless : ∀ d i j, less d i j = decide (i > j)) (p : List α) (k : Nat) :
    ∀ s t : List α, s.length = k + 1 →
      (List.range' (p.length + 1) k).foldl (fun d i => insertionInner less p.length i d)
        (p ++ (s ++ t)) = p ++ (s.reverse ++ t) := by
  induction k with
  | zero =>
    intro s t hs
    match s, hs with
    | [x], _ => simp
  | succ k ih =>
    intro s t hs
    rcases List.eq_nil_or_concat s with h | ⟨s', x, rfl⟩
    · subst h; simp at hs
    · simp only [List.concat_eq_append] at hs ⊢
      have hs' : s'.length = k + 1 := by simpa using hs
      rw [List.range'_concat, List.foldl_append]
      have h1 := ih s' (x :: t) hs'
      have e : p ++ (s' ++ [x] ++ t) = p ++ (s' ++ x :: t) := by simp
      rw [e, h1]
      simp only [List.foldl_cons, List.foldl_nil, Nat.one_mul]
      have h2 := insertionInner_moves_front less hless p s'.reverse t x
      rw [List.length_reverse, hs'] at h2
      have e2 : p.length + 1 + k = p.length + (k + 1) := by omega
      rw [e2, h2]
      simp

theorem insertionSort_func_reverses (less : List α → Nat → Nat → Bool)
    (hless : ∀ d i j, less d i j = decide (i > j)) (p s q : List α) :
    insertionSort_func less (p ++ (s ++ q)) p.length (p.length + s.length) =
      p ++ (s.reverse ++ q) := by
  unfold insertionSort_func
  cases hs : s.length with
  | zero =>
    have : s = [] := List.length_eq_zero.1 hs
    subst this
    simp
  | succ k =>
    have e : p.length + (k + 1) - (p.length + 1) = k := by omega
    rw [e]
    exact insertionLoop_reverses less hless p k s q hs

theorem swapRangeLoop_exchanges (a b : Nat) (n : Nat) :
    ∀ (s : Nat) (p u mid v q : List α), u.length = n → v.length = n →
      a + s = p.length → b + s = p.length + u.length + mid.length →
      (List.range' s n).foldl (fun d i => swap d (a + i) (b + i))
        (p ++ (u ++ (mid ++ (v ++ q)))) = p ++ (v ++ (mid ++ (u ++ q))) := by
  induction n with
  | zero =>
    intro s p u mid v q hu hv _ _
    have hu0 : u = [] := List.length_eq_zero.1 hu
    have hv0 : v = [] := List.length_eq_zero.1 hv
    subst hu0 hv0
    simp
  | succ n ih =>
    intro s p u mid v q hu hv ha hb
    match u, v, hu, hv with
    | x :: u, y :: v, hu, hv =>
      have hu' : u.length = n := by simpa using hu
      have hv' : v.length = n := by simpa using hv
      rw [List.range'_succ, List.foldl_cons]
      have hsw : swap (p ++ (x :: u ++ (mid ++ (y :: v ++ q)))) (a + s) (b + s) =
          (p ++ [y]) ++ (u ++ ((mid ++ [x]) ++ (v ++ q))) := by
        have h := (swap_split p (u ++ mid) (v ++ q) x y).1
        have e1 : a + s = p.length := ha
        have e2 : b + s = p.length + (u ++ mid).length + 1 := by
          rw [hb]; simp; omega
        rw [e1, e2]
        simpa using h
      rw [hsw]
      have h2 := ih (s + 1) (p ++ [y]) u (mid ++ [x]) v q hu' hv'
        (by simp; omega) (by rw [List.length_cons] at hb; simp; omega)
      rw [h2]
      simp

theorem swapRange_func_exchanges (p u mid v q : List α) (a b n : Nat)
    (hu : u.length = n) (hv : v.length = n) (ha : a = p.length)
    (hb : b = p.length + u.length + mid.length) :
    swapRange_func (p ++ (u ++ (mid ++ (v ++ q)))) a b n = p ++ (v ++ (mid ++ (u ++ q))) := by
  unfold swapRange_func
  exact swapRangeLoop_exchanges a b n 0 p u mid v q hu hv (by omega) (by omega)

theorem rotateLoop_exchanges (m : Nat) (fuel : Nat) :
    ∀ (p u v q : List α), 0 < u.length → 0 < v.length → p.length + u.length = m →
      u.length + v.length ≤ fuel →
      rotateLoop m fuel (p ++ (u ++ (v ++ q))) u.length v.length = p ++ (v ++ (u ++ q)) := by
  induction fuel with
  | zero =>
    intro p u v q hu hv _ hf
    omega
  | succ fuel ih =>
    intro p u v q hu hv hm hf
    rw [rotateLoop]
    by_cases hij : u.length = v.length
    · rw [if_neg (by simpa using hij)]
      have h := swapRange_func_exchanges p u [] v q (m - u.length) m u.length rfl hij.symm
        (by omega) (by simp; omega)
      simpa using h
    · rw [if_pos hij]
      by_cases hgt : u.length > v.length
      · rw [if_pos hgt]
        have hsplit : u = u.take v.length ++ u.drop v.length := (List.take_append_drop _ _).symm
        have hl1 : (u.take v.length).length = v.length := by
          rw [List.length_take]; omega
        have hl2 : (u.drop v.length).length = u.length - v.length := by
          rw [List.length_drop]
        have h := swapRange_func_exchanges p (u.take v.length) (u.drop v.length) v q
          (m - u.length) m v.length hl1 rfl (by omega) (by rw [hl1, hl2]; omega)
        have e : p ++ (u ++ (v ++ q)) =
            p ++ (u.take v.length ++ (u.drop v.length ++ (v ++ q))) := by
          rw [← List.append_assoc (u.take v.length), List.take_append_drop]
        rw [e, h]
        have h2 := ih (p ++ v) (u.drop v.length) (u.take v.length) q (by omega) (by omega)
          (by rw [List.length_append, hl2]; omega) (by rw [hl1, hl2]; omega)
        rw [hl1, hl2] at h2
        have e2 : p ++ (v ++ (u.drop v.length ++ (u.take v.length ++ q))) =
            p ++ v ++ (u.drop v.length ++ (u.take v.length ++ q)) := by simp
        rw [e2, h2]
        simp only [List.append_assoc]
        rw [← List.append_assoc (u.take v.length), List.take_append_drop]
      · rw [if_neg hgt]
        have hlt : u.length < v.length := by omega
        have hl1 : (v.take (v.length - u.length)).length = v.length - u.length := by
          rw [List.length_take]; omega
        have hl2 : (v.drop (v.length - u.length)).length = u.length := by
          rw [List.length_drop]; omega
        have h := swapRange_func_exchanges p u (v.take (v.length - u.length))
          (v.drop (v.length - u.length)) q (m - u.length) (m + v.length - u.length) u.length
          rfl hl2 (by omega) (by rw [hl1]; omega)
        have e : p ++ (u ++ (v ++ q)) =
            p ++ (u ++ (v.take (v.length - u.length) ++
              (v.drop (v.length - u.length) ++ q))) := by
          rw [← List.append_assoc (v.take _), List.take_append_drop]
        rw [e, h]
        have h2 := ih p (v.drop (v.length - u.length)) (v.take (v.length - u.length))
          (u ++ q) (by omega) (by omega) (by rw [hl2]; omega) (by rw [hl1, hl2]; omega)
        rw [hl1, hl2] at h2
        rw [h2]
        rw [← List.append_assoc (v.take _), List.take_append_drop]

theorem rotate_func_exchanges (p u v q : List α) (a m b : Nat) (hu : 0 < u.length)
    (hv : 0 < v.length) (ha : a = p.length) (hm : m = p.length + u.length)
    (hb : b = p.length + u.length + v.length) :
    rotate_func (p ++ (u ++ (v ++ q))) a m b = p ++ (v ++ (u ++ q)) := by
  unfold rotate_func
  have e1 : m - a = u.length := by omega
  have e2 : b - m = v.length := by omega
  rw [e1, e2]
  exact rotateLoop_exchanges m (b - a + 1) p u v q hu hv hm.symm (by omega)

theorem searchLoop_all_false (p : Nat → Bool) (fuel : Nat) :
    ∀ (i j : Nat), (∀ h, i ≤ h → h < j → p h = false) → searchLoop p fuel i j = i := by
  induction fuel with
  | zero => intro i j _; rfl
  | succ fuel ih =>
    intro i j hp
    rw [searchLoop]
    by_cases hij : i < j
    · rw [if_pos hij, hp ((i + j) / 2) (by omega) (by omega)]
      simp only [Bool.false_eq_true, if_false]
      exact ih i ((i + j) / 2) (fun h h1 h2 => hp h h1 (by omega))
    · rw [if_neg hij]

theorem searchLoop_all_true (p : Nat → Bool) (fuel : Nat) :
    ∀ (i j : Nat), (∀ h, i ≤ h → h < j → p h = true) → i ≤ j → j - i ≤ fuel →
      searchLoop p fuel i j = j := by
  induction fuel with
  | zero => intro i j _ h1 h2; simp only [searchLoop]; omega
  | succ fuel ih =>
    intro i j hp h1 h2
    rw [searchLoop]
    by_cases hij : i < j
    · rw [if_pos hij, hp ((i + j) / 2) (by omega) (by omega)]
      simp only [if_true]
      exact ih ((i + j) / 2 + 1) j (fun h h3 h4 => hp h (by omega) h4) (by omega) (by omega)
    · rw [if_neg hij]; omega

theorem swapUp_moves_back (v : List α) :
    ∀ (p q : List α) (x : α) (a : Nat), a = p.length →
      (List.range' a v.length).foldl (fun d k => swap d k (k + 1)) (p ++ x :: (v ++ q)) =
        p ++ (v ++ x :: q) := by
  induction v with
  | nil => intro p q x a _; simp
  | cons y v ih =>
    intro p q x a ha
    subst ha
    rw [List.length_cons, List.range'_succ, List.foldl_cons]
    have hsw : swap (p ++ x :: (y :: v ++ q)) p.length (p.length + 1) =
        (p ++ [y]) ++ x :: (v ++ q) := by
      have := swap_adjacent_up p (v ++ q) x y
      simpa using this
    rw [hsw, ih (p ++ [y]) q x (p.length + 1) (by simp)]
    simp

theorem swapDown_moves_front (p s q : List α) (x : α) :
    swapDown p.length (p.length + s.length) (p ++ (s ++ x :: q)) = p ++ x :: (s ++ q) := by
  induction s using List.reverseRecOn generalizing q with
  | nil =>
    simp only [List.length_nil, Nat.add_zero, List.nil_append]
    cases hp : p.length with
    | zero => rfl
    | succ n => simp [swapDown]
  | append_singleton s y ih =>
    have e : p.length + (s ++ [y]).length = (p.length + s.length) + 1 := by simp; omega
    rw [e, swapDown, if_pos (by omega)]
    have hsw : swap (p ++ (s ++ [y] ++ x :: q)) (p.length + s.length + 1) (p.length + s.length) =
        p ++ (s ++ x :: (y :: q)) := by
      have := swap_adjacent (p ++ s) q y x
      simpa using this
    rw [hsw, ih (y :: q)]
    simp

theorem symMerge_func_exchanges (less : List α → Nat → Nat → Bool)
    (hless : ∀ d i j, less d i j = decide (i > j)) (fuel : Nat) :
    ∀ (p u v q : List α) (a m b : Nat), 0 < u.length → 0 < v.length →
      u.length + v.length ≤ fuel → a = p.length → m = a + u.length → b = m + v.length →
      symMerge_func less fuel (p ++ (u ++ (v ++ q))) a m b = p ++ (v ++ (u ++ q)) := by
  induction fuel with
  | zero => intro p u v q a m b hu hv hf; omega
  | succ fuel ih =>
    intro p u v q a m b hu hv hf ha hm hb
    rw [symMerge_func]
    simp only [hless]
    by_cases h1 : m - a = 1
    · rw [if_pos h1]
      have hu1 : u.length = 1 := by omega
      match u, hu1 with
      | [x], _ =>
        rw [searchLoop_all_true _ _ m b (by intro h h1 h2; simp; omega) (by omega) (by omega)]
        have e : b - 1 - a = v.length := by simp at hm; omega
        rw [e]
        have := swapUp_moves_back v p q x a ha
        simpa using this
    · rw [if_neg h1]
      by_cases h2 : b - m = 1
      · rw [if_pos h2]
        have hv1 : v.length = 1 := by omega
        match v, hv1 with
        | [y], _ =>
          rw [searchLoop_all_false _ _ a m (by intro h h1 h2; simp; omega)]
          have := swapDown_moves_front p u q y
          rw [ha, hm, ha]
          simpa using this
      · rw [if_neg h2]
        obtain ⟨mid, hM⟩ : ∃ mid, mid = (a + b) / 2 := ⟨_, rfl⟩
        rw [← hM]
        by_cases hmid : m > mid
        · simp only [hmid, if_true]
          rw [searchLoop_all_false _ _ (mid + m - b) mid (by intro h h1 h2; simp; omega)]
          have hstop : mid + m - (mid + m - b) = b := by omega
          have hc1 : (decide (mid + m - b < m) && decide (m < b)) = true := by
            simp; omega
          have hc2 : (decide (mid < b) && decide (b < b)) = false := by simp
          simp only [hstop, hc1, hc2, if_true, Bool.false_eq_true, if_false]
          have hl1 : (u.take (mid + m - b - a)).length = mid + m - b - a := by
            rw [List.length_take]; omega
          have hl2 : (u.drop (mid + m - b - a)).length = m - (mid + m - b) := by
            rw [List.length_drop]; omega
          have e : p ++ (u ++ (v ++ q)) =
              (p ++ u.take (mid + m - b - a)) ++ (u.drop (mid + m - b - a) ++ (v ++ q)) := by
            simp only [List.append_assoc]
            rw [← List.append_assoc (u.take _), List.take_append_drop]
          have hrot := rotate_func_exchanges (p ++ u.take (mid + m - b - a))
            (u.drop (mid + m - b - a)) v q (mid + m - b) m b (by omega) hv
            (by rw [List.length_append, hl1]; omega)
            (by rw [List.length_append, hl1, hl2]; omega)
            (by rw [List.length_append, hl1, hl2]; omega)
          rw [e, hrot]
          by_cases hst : a < mid + m - b
          · have hc3 : (decide (a < mid + m - b) && decide (mid + m - b < mid)) = true := by
              simp; omega
            rw [if_pos hc3]
            have h := ih p (u.take (mid + m - b - a)) v (u.drop (mid + m - b - a) ++ q) a
              (mid + m - b) mid (by omega) hv (by omega) ha (by omega) (by omega)
            simp only [List.append_assoc] at h ⊢
            rw [h]
            rw [← List.append_assoc (u.take _), List.take_append_drop]
          · have hc3 : (decide (a < mid + m - b) && decide (mid + m - b < mid)) = false := by
              simp; omega
            rw [if_neg (by rw [hc3]; simp)]
            have h0 : mid + m - b - a = 0 := by omega
            simp [h0]
        · simp only [hmid, if_false]
          rw [searchLoop_all_false _ _ a m (by intro h h1 h2; simp; omega)]
          have hc1 : (decide (a < m) && decide (m < mid + m - a)) = true := by
            simp; omega
          have hc2 : (decide (a < a) && decide (a < mid)) = false := by simp
          simp only [hc1, hc2, if_true, Bool.false_eq_true, if_false]
          have hl1 : (v.take (mid - a)).length = mid - a := by
            rw [List.length_take]; omega
          have hl2 : (v.drop (mid - a)).length = v.length - (mid - a) := by
            rw [List.length_drop]
          have e : p ++ (u ++ (v ++ q)) =
              p ++ (u ++ (v.take (mid - a) ++ (v.drop (mid - a) ++ q))) := by
            rw [← List.append_assoc (v.take _), List.take_append_drop]
          have hrot := rotate_func_exchanges p u (v.take (mid - a)) (v.drop (mid - a) ++ q)
            a m (mid + m - a) hu (by omega) ha (by omega) (by rw [hl1]; omega)
          rw [e, hrot]
          by_cases hst : mid + m - a < b
          · have hc3 : (decide (mid < mid + m - a) && decide (mid + m - a < b)) = true := by
              simp; omega
            rw [if_pos hc3]
            have h := ih (p ++ v.take (mid - a)) u (v.drop (mid - a)) q mid (mid + m - a) b
              hu (by omega) (by omega) (by rw [List.length_append, hl1]; omega) (by omega)
              (by omega)
            simp only [List.append_assoc] at h ⊢
            rw [h]
            rw [← List.append_assoc (v.take _), List.take_append_drop]
          · have hc3 : (decide (mid < mid + m - a) && decide (mid + m - a < b)) = false := by
              simp; omega
            rw [if_neg (by rw [hc3]; simp)]
            have h0 : v.drop (mid - a) = [] := by
              apply List.drop_eq_nil_of_le; omega
            rw [h0]
            have h1 : v.take (mid - a) = v := by
              apply List.take_of_length_le; omega
            rw [h1]
            simp

theorem revChunks_of_le (B : Nat) (l : List α) (h : l.length ≤ B) :
    revChunks B l = l.reverse := by
  rw [revChunks, if_pos (Or.inr h)]

theorem revChunks_of_ge (B : Nat) (l : List α) (hB : 0 < B) :
    revChunks B l = (l.take B).reverse ++ revChunks B (l.drop B) := by
  by_cases he : l.length ≤ B
  · have hd : l.drop B = [] := List.drop_eq_nil_of_le he
    have ht : l.take B = l := List.take_of_length_le he
    rw [hd, ht, revChunks_of_le B l he, revChunks_of_le B [] (by simp)]
    simp
  · rw [revChunks, if_neg (by omega)]

theorem insertBlocks_revChunks (less : List α → Nat → Nat → Bool)
    (hless : ∀ d i j, less d i j = decide (i > j)) (n B : Nat) (hB : 0 < B) (fuel : Nat) :
    ∀ (p rest : List α), rest.length < fuel → n = p.length + rest.length →
      insertBlocks less n B fuel (p ++ rest) p.length (p.length + B) =
        p ++ revChunks B rest := by
  induction fuel with
  | zero => intro p rest h _; omega
  | succ fuel ih =>
    intro p rest hf hn
    rw [insertBlocks]
    by_cases hb : p.length + B ≤ n
    · rw [if_pos hb]
      have hl1 : (rest.take B).length = B := by rw [List.length_take]; omega
      have hl2 : (rest.drop B).length = rest.length - B := by rw [List.length_drop]
      have h := insertionSort_func_reverses less hless p (rest.take B) (rest.drop B)
      rw [List.take_append_drop, hl1] at h
      rw [h]
      have h2 := ih (p ++ (rest.take B).reverse) (rest.drop B) (by omega)
        (by rw [List.length_append, List.length_reverse, hl1, hl2]; omega)
      rw [List.length_append, List.length_reverse, hl1] at h2
      rw [← List.append_assoc, h2, revChunks_of_ge B rest hB]
      simp
    · rw [if_neg hb]
      have h := insertionSort_func_reverses less hless p rest []
      rw [List.append_nil] at h
      rw [hn, h, revChunks_of_le B rest (by omega)]
      simp

theorem mergePass_revChunks (less : List α → Nat → Nat → Bool)
    (hless : ∀ d i j, less d i j = decide (i > j)) (n B : Nat) (hB : 0 < B) (fuel : Nat) :
    ∀ (p rest : List α), rest.length < fuel → n = p.length + rest.length →
      mergePass less n B fuel (p ++ revChunks B rest) p.length (p.length + 2 * B) =
        p ++ revChunks (2 * B) rest := by
  induction fuel with
  | zero => intro p rest h _; omega
  | succ fuel ih =>
    intro p rest hf hn
    rw [mergePass]
    by_cases hb : p.length + 2 * B ≤ n
    · rw [if_pos hb]
      have hl1 : (rest.take B).length = B := by rw [List.length_take]; omega
      have hl2 : (rest.drop B).length = rest.length - B := by rw [List.length_drop]
      have hl3 : ((rest.drop B).take B).length = B := by rw [List.length_take, hl2]; omega
      have hl4 : (rest.take (2 * B)).length = 2 * B := by rw [List.length_take]; omega
      have hl5 : (rest.drop (2 * B)).length = rest.length - 2 * B := by rw [List.length_drop]
      have e1 : revChunks B rest = (rest.take B).reverse ++
          (((rest.drop B).take B).reverse ++ revChunks B (rest.drop (2 * B))) := by
        rw [revChunks_of_ge B rest hB,
          revChunks_of_ge B (rest.drop B) hB, List.drop_drop]
        have : B + B = 2 * B := by omega
        rw [this]
      have hsm := symMerge_func_exchanges less hless (n + 1) p (rest.take B).reverse
        ((rest.drop B).take B).reverse (revChunks B (rest.drop (2 * B))) p.length
        (p.length + B) (p.length + 2 * B)
        (by rw [List.length_reverse, hl1]; exact hB)
        (by rw [List.length_reverse, hl3]; exact hB)
        (by rw [List.length_reverse, List.length_reverse, hl1, hl3]; omega) rfl
        (by rw [List.length_reverse, hl1])
        (by rw [List.length_reverse, hl3]; omega)
      rw [e1, hsm]
      have e2 : ((rest.drop B).take B).reverse ++ (rest.take B).reverse =
          (rest.take (2 * B)).reverse := by
        rw [← List.reverse_append]
        have : 2 * B = B + B := by omega
        rw [this, List.take_add]
      have h2 := ih (p ++ (rest.take (2 * B)).reverse) (rest.drop (2 * B)) (by omega)
        (by rw [List.length_append, List.length_reverse, hl4, hl5]; omega)
      rw [List.length_append, List.length_reverse, hl4] at h2
      have e3 : p ++ (((rest.drop B).take B).reverse ++
          ((rest.take B).reverse ++ revChunks B (rest.drop (2 * B)))) =
          p ++ (rest.take (2 * B)).reverse ++ revChunks B (rest.drop (2 * B)) := by
        rw [← e2]; simp
      rw [e3, h2, revChunks_of_ge (2 * B) rest (by omega)]
      simp
    · rw [if_neg hb]
      by_cases hm : p.length + B < n
      · rw [if_pos hm]
        have hl1 : (rest.take B).length = B := by rw [List.length_take]; omega
        have hl2 : (rest.drop B).length = rest.length - B := by rw [List.length_drop]
        have e1 : revChunks B rest = (rest.take B).reverse ++ ((rest.drop B).reverse ++ []) := by
          rw [revChunks_of_ge B rest hB,
            revChunks_of_le B (rest.drop B) (by omega)]
          simp
        have hsm := symMerge_func_exchanges less hless (n + 1) p (rest.take B).reverse
          (rest.drop B).reverse [] p.length (p.length + B) n
          (by rw [List.length_reverse, hl1]; exact hB)
          (by rw [List.length_reverse, hl2]; omega)
          (by rw [List.length_reverse, List.length_reverse, hl1, hl2]; omega) rfl
          (by rw [List.length_reverse, hl1])
          (by rw [List.length_reverse, hl2]; omega)
        rw [e1, hsm, revChunks_of_le (2 * B) rest (by omega)]
        rw [List.append_nil, ← List.reverse_append, List.take_append_drop]
      · rw [if_neg hm, revChunks_of_le B rest (by omega),
          revChunks_of_le (2 * B) rest (by omega)]

theorem mergeLoop_reverses (less : List α → Nat → Nat → Bool)
    (hless : ∀ d i j, less d i j = decide (i > j)) (l : List α) (fuel : Nat) :
    ∀ B : Nat, 0 < B → l.length < B + fuel →
      mergeLoop less l.length fuel (revChunks B l) B = l.reverse := by
  induction fuel with
  | zero =>
    intro B _ h
    rw [mergeLoop, revChunks_of_le B l (by omega)]
  | succ fuel ih =>
    intro B hB h
    rw [mergeLoop]
    by_cases hlt : B < l.length
    · rw [if_pos hlt]
      have hp := mergePass_revChunks less hless l.length B hB (l.length + 1) [] l
        (by omega) (by simp)
      simp only [List.nil_append, List.length_nil, Nat.zero_add] at hp
      rw [hp]
      have e : B * 2 = 2 * B := by omega
      rw [e]
      exact ih (2 * B) (by omega) (by omega)
    · rw [if_neg hlt, revChunks_of_le B l (by omega)]

theorem SliceStable_index_descending (less : List α → Nat → Nat → Bool)
    (hless : ∀ d i j, less d i j = decide (i > j)) (x : List α) :
    SliceStable x less = x.reverse := by
  unfold SliceStable stable_func
  have h1 := insertBlocks_revChunks less hless x.length 20 (by omega) (x.length + 1) [] x
    (by omega) (by simp)
  simp only [List.nil_append, List.length_nil, Nat.zero_add] at h1
  rw [h1]
  exact mergeLoop_reverses less hless x (x.length + 1) 20 (by omega) (by omega)

end StableSortLemmas

/-! ## Lemmas on the calendar computations of package `time` -/

theorem wrapU64_eq (x : Int) (h0 : 0 ≤ x) (h1 : x < 18446744073709551616) : wrapU64 x = x := by
  unfold wrapU64
  omega

theorem wrapI64_eq (x : Int) (h0 : -9223372036854775808 ≤ x) (h1 : x < 9223372036854775808) :
    wrapI64 x = x := by
  unfold wrapI64
  omega

theorem wrapU64_range (x : Int) : 0 ≤ wrapU64 x ∧ wrapU64 x < 18446744073709551616 := by
  unfold wrapU64
  omega

theorem cycles_aux (d n400 d1 q100 n100 d2 n4 d3 q1 n1 yday : Int)
    (h1 : n400 = d / 146097) (h2 : d1 = d - 146097 * n400) (h3 : q100 = d1 / 36524)
    (h4 : n100 = q100 - q100 / 4) (h5 : d2 = d1 - 36524 * n100) (h6 : n4 = d2 / 1461)
    (h7 : d3 = d2 - 1461 * n4) (h8 : q1 = d3 / 365) (h9 : n1 = q1 - q1 / 4)
    (h10 : yday = d3 - 365 * n1) :
    0 ≤ n100 ∧ n100 ≤ 3 ∧ 0 ≤ n4 ∧ n4 ≤ 24 ∧ 0 ≤ n1 ∧ n1 ≤ 3 ∧ 0 ≤ yday ∧ yday ≤ 365 ∧
    (yday = 365 → n1 = 3 ∧ (n4 = 24 → n100 = 3)) ∧
    d = 146097 * n400 + 36524 * n100 + 1461 * n4 + 365 * n1 + yday := by
  omega

theorem daysSinceEpoch_aux (n400 n100 n4 n1 : Int) (h400 : 0 ≤ n400 ∧ n400 ≤ 2000000000)
    (h100 : 0 ≤ n100 ∧ n100 ≤ 3) (h4 : 0 ≤ n4 ∧ n4 ≤ 24) (h1 : 0 ≤ n1 ∧ n1 ≤ 3) :
    daysSinceEpoch (400 * n400 + 100 * n100 + 4 * n4 + n1 + absoluteZeroYear) =
      146097 * n400 + 36524 * n100 + 1461 * n4 + 365 * n1 := by
  unfold daysSinceEpoch
  have e : 400 * n400 + 100 * n100 + 4 * n4 + n1 + absoluteZeroYear - absoluteZeroYear =
      400 * n400 + 100 * n100 + 4 * n4 + n1 := by omega
  rw [e, wrapI64_eq _ (by omega) (by omega),
    wrapU64_eq (400 * n400 + 100 * n100 + 4 * n4 + n1) (by omega) (by omega)]
  simp only [daysPer400Years, daysPer100Years, daysPer4Years]
  rw [wrapU64_eq _ (by omega) (by omega)]
  omega

theorem isLeap_aux (n400 n100 n4 n1 : Int) (h4 : 0 ≤ n4 ∧ n4 ≤ 24)
    (hl : isLeap (400 * n400 + 100 * n100 + 4 * n4 + n1 + absoluteZeroYear) = false) :
    ¬ (n1 = 3 ∧ (n4 = 24 → n100 = 3)) := by
  simp only [isLeap, absoluteZeroYear] at hl
  simp at hl
  omega

theorem absYearDay_spec (abs : Int) (hlo : 0 ≤ abs) (hhi : abs < 18446744073709551616) :
    daysSinceEpoch (absYearDay abs).1 + (absYearDay abs).2 = abs / secondsPerDay ∧
    0 ≤ (absYearDay abs).2 ∧ (absYearDay abs).2 ≤ 365 ∧
    (isLeap (absYearDay abs).1 = false → (absYearDay abs).2 ≤ 364) := by
  obtain ⟨d, hd⟩ : ∃ d, d = abs / secondsPerDay := ⟨_, rfl⟩
  have hdr : 0 ≤ d ∧ d ≤ 213503982334601 := by
    simp only [secondsPerDay, secondsPerHour, secondsPerMinute] at hd
    omega
  obtain ⟨n400, h1⟩ : ∃ x, x = d / 146097 := ⟨_, rfl⟩
  obtain ⟨d1, h2⟩ : ∃ x, x = d - 146097 * n400 := ⟨_, rfl⟩
  obtain ⟨q100, h3⟩ : ∃ x, x = d1 / 36524 := ⟨_, rfl⟩
  obtain ⟨n100, h4⟩ : ∃ x, x = q100 - q100 / 4 := ⟨_, rfl⟩
  obtain ⟨d2, h5⟩ : ∃ x, x = d1 - 36524 * n100 := ⟨_, rfl⟩
  obtain ⟨n4, h6⟩ : ∃ x, x = d2 / 1461 := ⟨_, rfl⟩
  obtain ⟨d3, h7⟩ : ∃ x, x = d2 - 1461 * n4 := ⟨_, rfl⟩
  obtain ⟨q1, h8⟩ : ∃ x, x = d3 / 365 := ⟨_, rfl⟩
  obtain ⟨n1, h9⟩ : ∃ x, x = q1 - q1 / 4 := ⟨_, rfl⟩
  obtain ⟨yday, h10⟩ : ∃ x, x = d3 - 365 * n1 := ⟨_, rfl⟩
  have hval : absYearDay abs =
      (400 * n400 + 100 * n100 + 4 * n4 + n1 + absoluteZeroYear, yday) := by
    subst h10 h9 h8 h7 h6 h5 h4 h3 h2 h1 hd
    rfl
  obtain ⟨a1, a2, a3, a4, a5, a6, a7, a8, a9, a10⟩ :=
    cycles_aux d n400 d1 q100 n100 d2 n4 d3 q1 n1 yday h1 h2 h3 h4 h5 h6 h7 h8 h9 h10
  rw [hval, ← hd]
  simp only []
  rw [daysSinceEpoch_aux n400 n100 n4 n1 (by omega) ⟨a1, a2⟩ ⟨a3, a4⟩ ⟨a5, a6⟩]
  refine ⟨by omega, a7, a8, fun hl => ?_⟩
  have hn := isLeap_aux n400 n100 n4 n1 ⟨a3, a4⟩ hl
  by_cases h365 : yday = 365
  · exact absurd (a9 h365) hn
  · omega

theorem year_of_cycles (d n400 n100 n4 n1 yday : Int)
    (hd : d = 146097 * n400 + 36524 * n100 + 1461 * n4 + 365 * n1 + yday)
    (h100 : 0 ≤ n100 ∧ n100 ≤ 3) (h4 : 0 ≤ n4 ∧ n4 ≤ 24) (h1 : 0 ≤ n1 ∧ n1 ≤ 3)
    (hy : 0 ≤ yday ∧ yday ≤ 365) (h365 : yday = 365 → n1 = 3 ∧ (n4 = 24 → n100 = 3))
    (hlo : 106751990353566 ≤ d) (hhi : d ≤ 106751994005990) :
    292277022399 ≤ 400 * n400 + 100 * n100 + 4 * n4 + n1 ∧
    400 * n400 + 100 * n100 + 4 * n4 + n1 ≤ 292277022399 + 9999 := by
  obtain ⟨h100a, h100b⟩ := h100
  obtain ⟨h4a, h4b⟩ := h4
  obtain ⟨h1a, h1b⟩ := h1
  interval_cases n100 <;> interval_cases n1 <;> omega

theorem absYear_range (abs : Int) (hlo : 9223371966548102400 ≤ abs)
    (hhi : abs ≤ 9223372282117622399) :
    0 ≤ (absYearDay abs).1 ∧ (absYearDay abs).1 ≤ 9999 := by
  obtain ⟨d, hd⟩ : ∃ d, d = abs / secondsPerDay := ⟨_, rfl⟩
  have hdr : 106751990353566 ≤ d ∧ d ≤ 106751994005990 := by
    simp only [secondsPerDay, secondsPerHour, secondsPerMinute] at hd
    omega
  obtain ⟨n400, h1⟩ : ∃ x, x = d / 146097 := ⟨_, rfl⟩
  obtain ⟨d1, h2⟩ : ∃ x, x = d - 146097 * n400 := ⟨_, rfl⟩
  obtain ⟨q100, h3⟩ : ∃ x, x = d1 / 36524 := ⟨_, rfl⟩
  obtain ⟨n100, h4⟩ : ∃ x, x = q100 - q100 / 4 := ⟨_, rfl⟩
  obtain ⟨d2, h5⟩ : ∃ x, x = d1 - 36524 * n100 := ⟨_, rfl⟩
  obtain ⟨n4, h6⟩ : ∃ x, x = d2 / 1461 := ⟨_, rfl⟩
  obtain ⟨d3, h7⟩ : ∃ x, x = d2 - 1461 * n4 := ⟨_, rfl⟩
  obtain ⟨q1, h8⟩ : ∃ x, x = d3 / 365 := ⟨_, rfl⟩
  obtain ⟨n1, h9⟩ : ∃ x, x = q1 - q1 / 4 := ⟨_, rfl⟩
  obtain ⟨yday, h10⟩ : ∃ x, x = d3 - 365 * n1 := ⟨_, rfl⟩
  have hval : (absYearDay abs).1 =
      400 * n400 + 100 * n100 + 4 * n4 + n1 + absoluteZeroYear := by
    subst h10 h9 h8 h7 h6 h5 h4 h3 h2 h1 hd
    rfl
  obtain ⟨a1, a2, a3, a4, a5, a6, a7, a8, a9, a10⟩ :=
    cycles_aux d n400 d1 q100 n100 d2 n4 d3 q1 n1 yday h1 h2 h3 h4 h5 h6 h7 h8 h9 h10
  obtain ⟨r1, r2⟩ := year_of_cycles d n400 n100 n4 n1 yday a10 ⟨a1, a2⟩ ⟨a3, a4⟩ ⟨a5, a6⟩
    ⟨a7, a8⟩ a9 hdr.1 hdr.2
  rw [hval]
  simp only [absoluteZeroYear]
  constructor
  · linarith
  · linarith

theorem daysBefore_values :
    daysBefore 0 = 0 ∧ daysBefore 1 = 31 ∧ daysBefore 2 = 59 ∧ daysBefore 3 = 90 ∧
    daysBefore 4 = 120 ∧ daysBefore 5 = 151 ∧ daysBefore 6 = 181 ∧ daysBefore 7 = 212 ∧
    daysBefore 8 = 243 ∧ daysBefore 9 = 273 ∧ daysBefore 10 = 304 ∧ daysBefore 11 = 334 ∧
    daysBefore 12 = 365 := by
  decide

theorem monthDay_core (day : Int) (h0 : 0 ≤ day) (h1 : day ≤ 364) :
    ∃ month dom : Int,
      (if day ≥ daysBefore (day / 31 + 1) then
          (day / 31 + 1 + 1, day - daysBefore (day / 31 + 1) + 1)
        else (day / 31 + 1, day - daysBefore (day / 31) + 1)) = (month, dom) ∧
      1 ≤ month ∧ month ≤ 12 ∧ 1 ≤ dom ∧ dom ≤ 31 ∧
      daysBefore (month - 1) + (dom - 1) = day ∧ (3 ≤ month ↔ 59 ≤ day) := by
  obtain ⟨m0, hm0⟩ : ∃ m, m = day / 31 := ⟨_, rfl⟩
  have hr : 0 ≤ m0 ∧ m0 ≤ 11 := by omega
  rw [← hm0]
  obtain ⟨hlo, hhi⟩ := hr
  obtain ⟨v0, v1, v2, v3, v4, v5, v6, v7, v8, v9, v10, v11, v12⟩ := daysBefore_values
  interval_cases m0 <;>
    simp only [Int.reduceAdd, v0, v1, v2, v3, v4, v5, v6, v7, v8, v9, v10, v11, v12] <;>
    split_ifs <;> refine ⟨_, _, rfl, ?_⟩ <;>
    simp only [Int.reduceSub, v0, v1, v2, v3, v4, v5, v6, v7, v8, v9, v10, v11, v12] <;>
    omega

theorem monthDay_spec (year yday : Int) (h0 : 0 ≤ yday) (h1 : yday ≤ 365)
    (h2 : isLeap year = false → yday ≤ 364) :
    1 ≤ (monthDay year yday).1 ∧ (monthDay year yday).1 ≤ 12 ∧
    1 ≤ (monthDay year yday).2 ∧ (monthDay year yday).2 ≤ 31 ∧
    daysBefore ((monthDay year yday).1 - 1) +
      (if isLeap year && decide ((monthDay year yday).1 ≥ 3) then 1 else 0) +
      ((monthDay year yday).2 - 1) = yday := by
  unfold monthDay
  cases hl : isLeap year
  · obtain ⟨month, dom, he, b1, b2, b3, b4, b5, b6⟩ := monthDay_core yday h0 (h2 hl)
    simp only [Bool.false_and, Bool.false_eq_true, if_false, he]
    omega
  · by_cases h59 : yday = 31 + 29 - 1
    · simp [h59, daysBefore]
    · by_cases hgt : yday > 31 + 29 - 1
      · obtain ⟨month, dom, he, b1, b2, b3, b4, b5, b6⟩ :=
          monthDay_core (yday - 1) (by omega) (by omega)
        have hm3 : 3 ≤ month := b6.2 (by omega)
        simp only [Bool.true_and, decide_eq_true_eq, h59, hgt, if_true, if_false, he]
        simp only [ge_iff_le, hm3, decide_True, if_true]
        omega
      · obtain ⟨month, dom, he, b1, b2, b3, b4, b5, b6⟩ := monthDay_core yday h0 (by omega)
        have hm3 : ¬ 3 ≤ month := fun h => by have := b6.1 h; omega
        simp only [Bool.true_and, decide_eq_true_eq, h59, hgt, if_true, if_false, he]
        simp only [ge_iff_le, hm3, decide_False, if_false, Bool.false_eq_true]
        omega
theorem norm_in_range (hi lo base : Int) (h0 : 0 ≤ lo) (h1 : lo < base) :
    norm hi lo base = (hi, lo) := by
  have hl : normLow hi lo base = (hi, lo) := by
    unfold normLow
    rw [if_neg (not_lt.2 h0)]
  unfold norm
  rw [hl, if_neg (by simp only []; omega)]

theorem absDate_spec (abs : Int) (hlo : 0 ≤ abs) (hhi : abs < 18446744073709551616) :
    1 ≤ (absDate abs).2.1 ∧ (absDate abs).2.1 ≤ 12 ∧
    1 ≤ (absDate abs).2.2 ∧ (absDate abs).2.2 ≤ 31 ∧
    daysSinceEpoch (absDate abs).1 + daysBefore ((absDate abs).2.1 - 1) +
      (if isLeap (absDate abs).1 && decide ((absDate abs).2.1 ≥ 3) then 1 else 0) +
      ((absDate abs).2.2 - 1) = abs / secondsPerDay := by
  obtain ⟨y1, y2, y3, y4⟩ := absYearDay_spec abs hlo hhi
  obtain ⟨m1, m2, m3, m4, m5⟩ := monthDay_spec (absYearDay abs).1 (absYearDay abs).2 y2 y3 y4
  simp only [absDate]
  refine ⟨m1, m2, m3, m4, ?_⟩
  omega

theorem absDate_congr (abs abs2 : Int) (h : abs / secondsPerDay = abs2 / secondsPerDay) :
    absDate abs = absDate abs2 := by
  simp only [absDate, absYearDay, h]

theorem absClock_spec (abs : Int) :
    0 ≤ (absClock abs).1 ∧ (absClock abs).1 < 24 ∧
    0 ≤ (absClock abs).2.1 ∧ (absClock abs).2.1 < 60 ∧
    0 ≤ (absClock abs).2.2 ∧ (absClock abs).2.2 < 60 ∧
    (absClock abs).1 * secondsPerHour + (absClock abs).2.1 * secondsPerMinute +
      (absClock abs).2.2 = abs % secondsPerDay := by
  simp only [absClock, secondsPerDay, secondsPerHour, secondsPerMinute]
  omega

theorem absClock_of_day_start (d h mi s : Int) (hh : 0 ≤ h ∧ h < 24) (hmi : 0 ≤ mi ∧ mi < 60)
    (hs : 0 ≤ s ∧ s < 60) :
    (d * secondsPerDay + (h * secondsPerHour + mi * secondsPerMinute + s)) / secondsPerDay = d ∧
    absClock (d * secondsPerDay + (h * secondsPerHour + mi * secondsPerMinute + s)) =
      (h, mi, s) := by
  simp only [absClock, secondsPerDay, secondsPerHour, secondsPerMinute]
  refine ⟨by omega, ?_⟩
  refine Prod.ext (by simp only []; omega) (Prod.ext (by simp only []; omega) (by simp only []; omega))

theorem lookup_fixedZone (offset sec : Int) :
    (fixedZone offset).lookup sec = (offset, alpha, omegaSec) := rfl

theorem abs_fixedZone (unix nsec offset : Int) (h0 : 0 ≤ unix + offset + unixToAbsolute)
    (h1 : unix + offset + unixToAbsolute < 18446744073709551616) :
    (Time.mk unix nsec (fixedZone offset)).abs = unix + offset + unixToAbsolute := by
  simp only [Time.abs, lookup_fixedZone, wrapU64, wrapI64, unixToAbsolute] at *
  omega

theorem zoneAdjust_fixedZone (offset unix : Int)
    (ho : -9223372036854775808 ≤ unix - offset ∧ unix - offset < 9223372036854775807) :
    zoneAdjust (fixedZone offset) unix = unix - offset := by
  unfold zoneAdjust
  simp only [lookup_fixedZone]
  by_cases h : offset = 0
  · simp [h]
  · have e : wrapI64 (unix - offset) = unix - offset := wrapI64_eq _ ho.1 (by omega)
    simp only [ne_eq, h, not_false_eq_true, if_true, e, alpha, omegaSec]
    rw [if_neg]
    simp only [Bool.or_eq_true, decide_eq_true_eq, not_or]
    omega

theorem Date_fixedZone (year month day hour min sec nsec offset total : Int)
    (hm : 1 ≤ month ∧ month ≤ 12) (hh : 0 ≤ hour ∧ hour < 24) (hmi : 0 ≤ min ∧ min < 60)
    (hs : 0 ≤ sec ∧ sec < 60) (hn : 0 ≤ nsec ∧ nsec < 1000000000)
    (htotal : daysSinceEpoch year + daysBefore (month - 1) +
      (if isLeap year && decide (month ≥ 3) then 1 else 0) + (day - 1) = total)
    (ht : 106751000000000 ≤ total ∧ total ≤ 106752000000000)
    (ho : -1000000000 ≤ offset ∧ offset ≤ 1000000000) :
    Date year month day hour min sec nsec (fixedZone offset) =
      { unix := total * secondsPerDay +
            (hour * secondsPerHour + min * secondsPerMinute + sec) - unixToAbsolute - offset,
        nsec := nsec, loc := fixedZone offset } := by
  unfold Date
  have e1 : wrapI64 (month - 1) = month - 1 := wrapI64_eq _ (by omega) (by omega)
  rw [e1, norm_in_range year (month - 1) 12 (by omega) (by omega),
    norm_in_range sec nsec 1000000000 hn.1 hn.2]
  simp only []
  rw [norm_in_range min sec 60 hs.1 hs.2]
  simp only []
  rw [norm_in_range hour min 60 hmi.1 hmi.2]
  simp only []
  rw [norm_in_range day hour 24 hh.1 hh.2]
  simp only [Int.sub_add_cancel]
  have e2 : wrapI64 month = month := wrapI64_eq _ (by omega) (by omega)
  rw [e2]
  have e3 : wrapU64 (daysSinceEpoch year + daysBefore (month - 1) +
      (if (isLeap year && decide (month ≥ 3)) = true then 1 else 0) +
      wrapU64 (wrapI64 (day - 1))) = total := by
    rw [← htotal] at ht
    rw [← htotal]
    generalize daysSinceEpoch year + daysBefore (month - 1) +
      (if (isLeap year && decide (month ≥ 3)) = true then 1 else 0) = base at ht ⊢
    simp only [wrapU64, wrapI64]
    omega
  rw [e3]
  have e4 : wrapI64 (wrapI64 (wrapU64 (wrapU64 (total * secondsPerDay) +
      wrapU64 (wrapI64 (wrapI64 (wrapI64 (hour * secondsPerHour) +
        wrapI64 (min * secondsPerMinute)) + sec)))) - unixToAbsolute) =
      total * secondsPerDay + (hour * secondsPerHour + min * secondsPerMinute + sec) -
        unixToAbsolute := by
    simp only [wrapU64, wrapI64, secondsPerDay, secondsPerHour, secondsPerMinute,
      unixToAbsolute]
    omega
  rw [e4]
  rw [zoneAdjust_fixedZone]
  simp only [secondsPerDay, secondsPerHour, secondsPerMinute, unixToAbsolute]
  omega

theorem absYear_bound (abs : Int) (hlo : 0 ≤ abs) (hhi : abs < 18446744073709551616) :
    -292277022399 ≤ (absYearDay abs).1 ∧ (absYearDay abs).1 ≤ 1000000000000 := by
  obtain ⟨d, hd⟩ : ∃ d, d = abs / secondsPerDay := ⟨_, rfl⟩
  have hdr : 0 ≤ d ∧ d ≤ 213503982334601 := by
    simp only [secondsPerDay, secondsPerHour, secondsPerMinute] at hd
    omega
  obtain ⟨n400, h1⟩ : ∃ x, x = d / 146097 := ⟨_, rfl⟩
  obtain ⟨d1, h2⟩ : ∃ x, x = d - 146097 * n400 := ⟨_, rfl⟩
  obtain ⟨q100, h3⟩ : ∃ x, x = d1 / 36524 := ⟨_, rfl⟩
  obtain ⟨n100, h4⟩ : ∃ x, x = q100 - q100 / 4 := ⟨_, rfl⟩
  obtain ⟨d2, h5⟩ : ∃ x, x = d1 - 36524 * n100 := ⟨_, rfl⟩
  obtain ⟨n4, h6⟩ : ∃ x, x = d2 / 1461 := ⟨_, rfl⟩
  obtain ⟨d3, h7⟩ : ∃ x, x = d2 - 1461 * n4 := ⟨_, rfl⟩
  obtain ⟨q1, h8⟩ : ∃ x, x = d3 / 365 := ⟨_, rfl⟩
  obtain ⟨n1, h9⟩ : ∃ x, x = q1 - q1 / 4 := ⟨_, rfl⟩
  obtain ⟨yday, h10⟩ : ∃ x, x = d3 - 365 * n1 := ⟨_, rfl⟩
  have hval : (absYearDay abs).1 =
      400 * n400 + 100 * n100 + 4 * n4 + n1 + absoluteZeroYear := by
    subst h10 h9 h8 h7 h6 h5 h4 h3 h2 h1 hd
    rfl
  obtain ⟨a1, a2, a3, a4, a5, a6, a7, a8, a9, a10⟩ :=
    cycles_aux d n400 d1 q100 n100 d2 n4 d3 q1 n1 yday h1 h2 h3 h4 h5 h6 h7 h8 h9 h10
  have hn : 0 ≤ n400 ∧ n400 ≤ 2000000000 := by omega
  rw [hval]
  simp only [absoluteZeroYear]
  omega

theorem abs_UTC (t : Time) (hloc : t.loc = UTC)
    (hu : -62167219200 ≤ t.unix ∧ t.unix ≤ 253402300799) :
    t.abs = t.unix + unixToAbsolute := by
  obtain ⟨u, ns, loc⟩ := t
  simp only at hloc hu
  subst hloc
  have h := abs_fixedZone u ns 0 (by simp only [unixToAbsolute]; omega)
    (by simp only [unixToAbsolute]; omega)
  simpa using h

theorem dayTime_spec (t : Time) (hloc : t.loc = UTC)
    (hn : 0 ≤ t.nsec ∧ t.nsec < 1000000000)
    (hu : -62167219200 ≤ t.unix ∧ t.unix ≤ 253402300799) (h mi s : Int)
    (hh : 0 ≤ h ∧ h < 24) (hmi : 0 ≤ mi ∧ mi < 60) (hs : 0 ≤ s ∧ s < 60) :
    (Date t.Year t.Month t.Day h mi s t.Nanosecond t.Location).loc = UTC ∧
    (Date t.Year t.Month t.Day h mi s t.Nanosecond t.Location).unix =
      t.abs / secondsPerDay * secondsPerDay +
        (h * secondsPerHour + mi * secondsPerMinute + s) - unixToAbsolute ∧
    (Date t.Year t.Month t.Day h mi s t.Nanosecond t.Location).Date = t.Date ∧
    (Date t.Year t.Month t.Day h mi s t.Nanosecond t.Location).Clock = (h, mi, s) := by
  have habs : t.abs = t.unix + unixToAbsolute := abs_UTC t hloc hu
  have hr : 0 ≤ t.abs ∧ t.abs < 18446744073709551616 := by
    rw [habs]; simp only [unixToAbsolute]; omega
  obtain ⟨m1, m2, _, _, m5⟩ := absDate_spec t.abs hr.1 hr.2
  have hl : t.Location = fixedZone 0 := hloc
  have htot : 106751000000000 ≤ t.abs / secondsPerDay ∧
      t.abs / secondsPerDay ≤ 106752000000000 := by
    rw [habs]
    simp only [unixToAbsolute, secondsPerDay, secondsPerHour, secondsPerMinute]
    omega
  have hD := Date_fixedZone t.Year t.Month t.Day h mi s t.Nanosecond 0
    (t.abs / secondsPerDay) ⟨m1, m2⟩ hh hmi hs hn m5 htot (by omega)
  rw [hl, hD]
  obtain ⟨c1, c2⟩ := absClock_of_day_start (t.abs / secondsPerDay) h mi s hh hmi hs
  have hra : (Time.mk (t.abs / secondsPerDay * secondsPerDay +
      (h * secondsPerHour + mi * secondsPerMinute + s) - unixToAbsolute - 0) t.Nanosecond
      (fixedZone 0)).abs = t.abs / secondsPerDay * secondsPerDay +
      (h * secondsPerHour + mi * secondsPerMinute + s) := by
    rw [abs_fixedZone]
    · omega
    · simp only [unixToAbsolute, secondsPerDay, secondsPerHour, secondsPerMinute] at htot ⊢
      omega
    · simp only [unixToAbsolute, secondsPerDay, secondsPerHour, secondsPerMinute] at htot ⊢
      omega
  refine ⟨rfl, by simp, ?_, ?_⟩
  · simp only [Time.Date, hra]
    exact absDate_congr _ _ c1
  · simp only [Time.Clock, hra]
    exact c2

theorem dateFields_range (t : Time) (hloc : t.loc = UTC)
    (hu : -62167219200 ≤ t.unix ∧ t.unix ≤ 253402300799) :
    0 ≤ t.Year ∧ t.Year ≤ 9999 ∧ 1 ≤ t.Month ∧ t.Month ≤ 12 ∧ 1 ≤ t.Day ∧ t.Day ≤ 31 := by
  have habs : t.abs = t.unix + unixToAbsolute := abs_UTC t hloc hu
  have hy := absYear_range t.abs (by rw [habs]; simp only [unixToAbsolute]; omega)
    (by rw [habs]; simp only [unixToAbsolute]; omega)
  obtain ⟨m1, m2, m3, m4, _⟩ := absDate_spec t.abs
    (by rw [habs]; simp only [unixToAbsolute]; omega)
    (by rw [habs]; simp only [unixToAbsolute]; omega)
  exact ⟨hy.1, hy.2, m1, m2, m3, m4⟩

theorem AddDate_nsec (now : Time) (day : Int) (hn : 0 ≤ now.nsec ∧ now.nsec < 1000000000) :
    (now.AddDate 0 0 day).nsec = now.nsec := by
  have h : (now.AddDate 0 0 day).nsec = (norm now.Clock.2.2 now.nsec 1000000000).2 := rfl
  rw [h, norm_in_range _ _ _ hn.1 hn.2]

theorem AddDate_fixedZone (now : Time) (day offset : Int) (hloc : now.loc = fixedZone offset)
    (hn : 0 ≤ now.nsec ∧ now.nsec < 1000000000)
    (hu : -62167219200 ≤ now.unix ∧ now.unix ≤ 253402300799)
    (ho : -100000 ≤ offset ∧ offset ≤ 100000)
    (hday : -4000000 ≤ day ∧ day ≤ 4000000) :
    (now.AddDate 0 0 day).unix = now.unix + day * 86400 := by
  have habs : now.abs = now.unix + offset + unixToAbsolute := by
    obtain ⟨u, ns, loc⟩ := now
    simp only at hloc hu
    subst hloc
    exact abs_fixedZone u ns offset (by simp only [unixToAbsolute]; omega)
      (by simp only [unixToAbsolute]; omega)
  have hr : 0 ≤ now.abs ∧ now.abs < 18446744073709551616 := by
    rw [habs]; simp only [unixToAbsolute]; omega
  obtain ⟨m1, m2, m3, m4, m5⟩ := absDate_spec now.abs hr.1 hr.2
  obtain ⟨y1, y2⟩ := absYear_bound now.abs hr.1 hr.2
  obtain ⟨c1, c2, c3, c4, c5, c6, c7⟩ := absClock_spec now.abs
  unfold Time.AddDate
  have hl : now.Location = fixedZone offset := hloc
  have hm : 1 ≤ now.Date.2.1 ∧ now.Date.2.1 ≤ 12 := ⟨m1, m2⟩
  have hdd : 1 ≤ now.Date.2.2 ∧ now.Date.2.2 ≤ 31 := ⟨m3, m4⟩
  have hyy : -292277022399 ≤ now.Date.1 ∧ now.Date.1 ≤ 1000000000000 := ⟨y1, y2⟩
  have hc1 : 0 ≤ now.Clock.1 ∧ now.Clock.1 < 24 := ⟨c1, c2⟩
  have hc2 : 0 ≤ now.Clock.2.1 ∧ now.Clock.2.1 < 60 := ⟨c3, c4⟩
  have hc3 : 0 ≤ now.Clock.2.2 ∧ now.Clock.2.2 < 60 := ⟨c5, c6⟩
  have w1 : wrapI64 (now.Date.1 + 0) = now.Date.1 := by
    rw [Int.add_zero]; exact wrapI64_eq _ (by omega) (by omega)
  have w2 : wrapI64 (now.Date.2.1 + 0) = now.Date.2.1 := by
    rw [Int.add_zero]; exact wrapI64_eq _ (by omega) (by omega)
  have w3 : wrapI64 (now.Date.2.2 + day) = now.Date.2.2 + day :=
    wrapI64_eq _ (by omega) (by omega)
  have htot0 : 106751990000000 ≤ now.abs / secondsPerDay ∧
      now.abs / secondsPerDay ≤ 106751995000000 := by
    rw [habs]
    simp only [unixToAbsolute, secondsPerDay, secondsPerHour, secondsPerMinute]
    omega
  have hsum : daysSinceEpoch now.Date.1 + daysBefore (now.Date.2.1 - 1) +
      (if (isLeap now.Date.1 && decide (now.Date.2.1 ≥ 3)) = true then 1 else 0) +
      (now.Date.2.2 + day - 1) = now.abs / secondsPerDay + day := by
    have := m5
    simp only [Time.Date] at this ⊢
    omega
  rw [w1, w2, w3, hl, Date_fixedZone _ _ _ _ _ _ _ offset (now.abs / secondsPerDay + day)
    hm hc1 hc2 hc3 hn hsum (by omega) (by omega)]
  have hclock : now.Clock.1 * secondsPerHour + now.Clock.2.1 * secondsPerMinute +
      now.Clock.2.2 = now.abs % secondsPerDay := c7
  simp only [hclock]
  rw [habs]
  simp only [secondsPerDay, secondsPerHour, secondsPerMinute]
  omega

theorem appendInt_two (x : Int) (h0 : 0 ≤ x) (h1 : x < 100) : appendInt x 2 = twoDigits x := by
  unfold appendInt appendDigits
  rw [if_neg (not_lt.2 h0), if_pos ⟨rfl, h1⟩]

theorem appendInt_four (x : Int) (h0 : 0 ≤ x) (h1 : x < 10000) :
    appendInt x 4 = fourDigits x := by
  unfold appendInt appendDigits
  rw [if_neg (not_lt.2 h0), if_neg (fun h => absurd h.1 (by decide)), if_pos ⟨rfl, h1⟩]

theorem FormatRFC3339_UTC (r : Time) (hloc : r.loc = UTC)
    (hy : 0 ≤ r.Date.1 ∧ r.Date.1 ≤ 9999) (hm : 0 ≤ r.Date.2.1 ∧ r.Date.2.1 < 100)
    (hd : 0 ≤ r.Date.2.2 ∧ r.Date.2.2 < 100) (hh : 0 ≤ r.Clock.1 ∧ r.Clock.1 < 100)
    (hmi : 0 ≤ r.Clock.2.1 ∧ r.Clock.2.1 < 100) (hs : 0 ≤ r.Clock.2.2 ∧ r.Clock.2.2 < 100) :
    r.FormatRFC3339 =
      rfc3339UTC r.Date.1 r.Date.2.1 r.Date.2.2 r.Clock.1 r.Clock.2.1 r.Clock.2.2 := by
  unfold Time.FormatRFC3339 rfc3339UTC
  rw [hloc, appendInt_four _ hy.1 (by omega), appendInt_two _ hm.1 hm.2,
    appendInt_two _ hd.1 hd.2, appendInt_two _ hh.1 hh.2, appendInt_two _ hmi.1 hmi.2,
    appendInt_two _ hs.1 hs.2]
  rfl

theorem rfc3339UTC_length (year month day hour min sec : Int) :
    (rfc3339UTC year month day hour min sec).length = 20 := by
  simp only [rfc3339UTC, twoDigits, fourDigits, String.length_append, String.length_mk,
    List.length_cons, List.length_nil]
  rfl

/-! ## Verified properties -/

/-- C1: for every sequence of time entries the task list built by the deduplication loop has no
string twice, and a string is in it exactly when it is the `Description` of some input entry
(the empty description included: nothing treats it specially). -/
theorem C1_taskList_nodup_and_complete (timeEntries : List TimeEntry) :
    (buildTaskList timeEntries).Nodup ∧
    (∀ s : String, s ∈ buildTaskList timeEntries ↔ ∃ e ∈ timeEntries, e.Description = s) ∧
    (∀ s : String, (buildTaskList timeEntries).count s =
      if (∃ e ∈ timeEntries, e.Description = s) then 1 else 0) := by
  have hnd : (buildTaskList timeEntries).Nodup :=
    foldl_dedupStep_nodup timeEntries [] List.nodup_nil
  have hmem : ∀ s : String,
      s ∈ buildTaskList timeEntries ↔ ∃ e ∈ timeEntries, e.Description = s := by
    intro s
    unfold buildTaskList
    rw [foldl_dedupStep_mem]
    simp
  refine ⟨hnd, hmem, ?_⟩
  intro s
  by_cases h : ∃ e ∈ timeEntries, e.Description = s
  · rw [if_pos h]
    exact List.count_eq_one_of_mem hnd ((hmem s).2 h)
  · rw [if_neg h]
    exact List.count_eq_zero_of_not_mem (fun hm => h ((hmem s).1 hm))

/-- C2: `getPreferredWorkspaceId` returns the `ID` of the first workspace, in list order, whose
`Name` is exactly the target, and the empty string when no workspace has that name. -/
theorem C2_getPreferredWorkspaceId_first_match (wrkspcs : List Workspace)
    (workspaceName : String) :
    (∃ before w after, wrkspcs = before ++ w :: after ∧
        (∀ x ∈ before, x.Name ≠ workspaceName) ∧ w.Name = workspaceName ∧
        getPreferredWorkspaceId wrkspcs workspaceName = w.ID) ∨
    ((∀ x ∈ wrkspcs, x.Name ≠ workspaceName) ∧
        getPreferredWorkspaceId wrkspcs workspaceName = "") := by
  induction wrkspcs with
  | nil => right; simp [getPreferredWorkspaceId]
  | cons w rest ih =>
    by_cases h : w.Name = workspaceName
    · left
      exact ⟨[], w, rest, rfl, by simp, h, by simp [getPreferredWorkspaceId, h]⟩
    · rcases ih with ⟨before, w', after, hsplit, hbefore, hname, hres⟩ | ⟨hnone, hres⟩
      · left
        refine ⟨w :: before, w', after, by simp [hsplit], ?_, hname, ?_⟩
        · intro x hx
          rcases List.mem_cons.1 hx with rfl | hx
          · exact h
          · exact hbefore x hx
        · simp [getPreferredWorkspaceId, h, hres]
      · right
        refine ⟨?_, by simp [getPreferredWorkspaceId, h, hres]⟩
        intro x hx
        rcases List.mem_cons.1 hx with rfl | hx
        · exact h
        · exact hnone x hx

/-- C3: for every well-formed caller header map (or none), the header map placed on the outgoing
request is a well-formed map in which every caller key has the caller's value list, each of
`Content-Type`, `User-Agent`, `X-Api-Key` that the caller does not give has its default value,
and nothing else is present. -/
theorem C3_request_headers_merge (env : Env) (reqType url : String)
    (payloads : Option (List Byte)) (headers : Option Header) (httpReq : HttpReq)
    (hwf : ∀ H, headers = some H → Header.WF H)
    (hreq : buildRequest env reqType url payloads headers = .ok httpReq) :
    Header.WF httpReq.Header ∧
    ∀ key : String, Header.get? httpReq.Header key =
      match headers.bind (fun H => Header.get? H key) with
      | some val => some val
      | none =>
        if key = "Content-Type" then some ["application/json"]
        else if key = "User-Agent" then some ["Clockify-Reporter"]
        else if key = "X-Api-Key" then some [env.apiKey]
        else none := by
  exact buildRequest_header_get? env reqType url payloads headers httpReq hwf hreq

/-- C3, at a concrete input: the caller overrides `Content-Type` and adds `X-Trace`. -/
theorem C3_request_headers_merge_witness :
    Header.WF sampleCallerHeaders ∧
    buildRequest sampleEnv "post" "https://h/x" none (some sampleCallerHeaders) =
      .ok sampleMergedReq ∧
    Header.WF sampleMergedReq.Header ∧
    Header.get? sampleMergedReq.Header "Content-Type" = some ["text/plain"] ∧
    Header.get? sampleMergedReq.Header "X-Trace" = some ["1", "2"] ∧
    Header.get? sampleMergedReq.Header "User-Agent" = some ["Clockify-Reporter"] ∧
    Header.get? sampleMergedReq.Header "X-Api-Key" = some ["k-123"] ∧
    Header.get? sampleMergedReq.Header "Accept" = none :=
  have h := C3_request_headers_merge sampleEnv "post" "https://h/x" none
    (some sampleCallerHeaders) sampleMergedReq
    (by intro H hH; cases hH; decide) (by rfl)
  ⟨by decide, by rfl, h.1, h.2 "Content-Type", h.2 "X-Trace", h.2 "User-Agent",
    h.2 "X-Api-Key", h.2 "Accept"⟩

/-- C4: when the verb upper-cases to `GET` or `HEAD`, the reader passed to `http.NewRequest` is
nil whatever the payload is, and so is the body of the request handed to the transport. -/
theorem C4_read_verbs_have_no_body (env : Env) (reqType url : String)
    (payloads : Option (List Byte)) (headers : Option Header)
    (hverb : env.ToUpper reqType = "GET" ∨ env.ToUpper reqType = "HEAD") :
    reqPayloads (env.ToUpper reqType) payloads = none ∧
    ∀ httpReq, buildRequest env reqType url payloads headers = .ok httpReq →
      httpReq.Body = none := by
  have hno : reqPayloads (env.ToUpper reqType) payloads = none := by
    rcases hverb with h | h <;> rw [h] <;> simp [reqPayloads, reqNeedPayloadsAt_iff]
  refine ⟨hno, fun httpReq hreq => ?_⟩
  rw [buildRequest_ok env reqType url payloads headers httpReq hreq]
  exact hno

/-- C4, at a concrete input: verb `get` with a three-byte payload. -/
theorem C4_read_verbs_have_no_body_witness :
    (sampleEnv.ToUpper "get" = "GET" ∨ sampleEnv.ToUpper "get" = "HEAD") ∧
    buildRequest sampleEnv "get" "https://h/x" (some [1, 2, 3]) none =
      .ok { Method := "GET", URL := "https://h/x", Body := none,
            Header := defaultHeaders sampleEnv } ∧
    (reqPayloads (sampleEnv.ToUpper "get") (some [1, 2, 3]) = none ∧
      ∀ httpReq, buildRequest sampleEnv "get" "https://h/x" (some [1, 2, 3]) none = .ok httpReq →
        httpReq.Body = none) :=
  ⟨by decide, by rfl,
   C4_read_verbs_have_no_body sampleEnv "get" "https://h/x" (some [1, 2, 3]) none
    (Or.inl (by decide))⟩

/-- C5: when the verb upper-cases to `POST`, `PUT`, `PATCH` or `DELETE` and the payload is not
empty (`len(payloads) > 0`), the reader passed to `http.NewRequest` is a buffer over exactly the
payload bytes, and that is the body of the request handed to the transport. -/
theorem C5_write_verbs_send_payload (env : Env) (reqType url : String)
    (payloads : Option (List Byte)) (headers : Option Header)
    (hverb : env.ToUpper reqType = "POST" ∨ env.ToUpper reqType = "PUT" ∨
      env.ToUpper reqType = "PATCH" ∨ env.ToUpper reqType = "DELETE")
    (hlen : 0 < (payloads.getD []).length) :
    ∃ bs : List Byte, payloads = some bs ∧
      reqPayloads (env.ToUpper reqType) payloads = some bs ∧
      ∀ httpReq, buildRequest env reqType url payloads headers = .ok httpReq →
        httpReq.Body = some bs := by
  cases payloads with
  | none => simp at hlen
  | some bs =>
    have hyes : reqPayloads (env.ToUpper reqType) (some bs) = some bs := by
      simp [reqPayloads, (reqNeedPayloadsAt_iff _).2 hverb]
    refine ⟨bs, rfl, hyes, fun httpReq hreq => ?_⟩
    rw [buildRequest_ok env reqType url (some bs) headers httpReq hreq]
    exact hyes

/-- C5, at a concrete input: verb `Patch` with a three-byte payload. -/
theorem C5_write_verbs_send_payload_witness :
    sampleEnv.ToUpper "Patch" = "PATCH" ∧
    buildRequest sampleEnv "Patch" "https://h/x" (some [7, 8, 9]) none =
      .ok { Method := "PATCH", URL := "https://h/x", Body := some [7, 8, 9],
            Header := defaultHeaders sampleEnv } ∧
    ∃ bs : List Byte, some [7, 8, 9] = some bs ∧
      reqPayloads (sampleEnv.ToUpper "Patch") (some [7, 8, 9]) = some bs ∧
      ∀ httpReq, buildRequest sampleEnv "Patch" "https://h/x" (some [7, 8, 9]) none =
        .ok httpReq → httpReq.Body = some bs :=
  ⟨by decide, by rfl,
   C5_write_verbs_send_payload sampleEnv "Patch" "https://h/x" (some [7, 8, 9]) none
    (Or.inr (Or.inr (Or.inl (by decide)))) (by decide)⟩

/-- C8, as stated, fails: for verb `post` and a present zero-length payload (`[]byte{}`, which is
not nil) the test `payloads != nil` succeeds and `Request` passes a non-nil reader, a buffer over
zero bytes, to `http.NewRequest`. -/
theorem C8_counterexample_empty_payload_attached :
    sampleEnv.ToUpper "post" = "POST" ∧
    ((some [] : Option (List Byte)).getD []).length = 0 ∧
    buildRequest sampleEnv "post" "https://h/x" (some []) none =
      .ok { Method := "POST", URL := "https://h/x", Body := some [],
            Header := defaultHeaders sampleEnv } ∧
    ({ Method := "POST", URL := "https://h/x", Body := some [],
       Header := defaultHeaders sampleEnv } : HttpReq).Body ≠ none :=
  ⟨by decide, by decide, by rfl, by decide⟩

/-- C8, amended: `Request` attaches a body reader exactly when the upper-cased verb is one of
`POST`, `PUT`, `PATCH`, `DELETE` and the payload is not nil; the reader is then over exactly the
payload, so for a nil payload, or any other verb, no reader is attached. -/
theorem C8_body_attached_iff_write_verb_and_non_nil (env : Env) (reqType url : String)
    (payloads : Option (List Byte)) (headers : Option Header) (httpReq : HttpReq)
    (hreq : buildRequest env reqType url payloads headers = .ok httpReq) :
    (httpReq.Body ≠ none ↔
      (env.ToUpper reqType = "POST" ∨ env.ToUpper reqType = "PUT" ∨
        env.ToUpper reqType = "PATCH" ∨ env.ToUpper reqType = "DELETE") ∧ payloads ≠ none) ∧
    (httpReq.Body ≠ none → httpReq.Body = payloads) ∧
    (payloads = none → httpReq.Body = none) := by
  rw [buildRequest_ok env reqType url payloads headers httpReq hreq]
  simp only [reqPayloads]
  by_cases hv : reqNeedPayloadsAt (env.ToUpper reqType) = true
  · have hv2 := (reqNeedPayloadsAt_iff _).1 hv
    cases payloads with
    | none => simp [hv]
    | some bs => simp [hv, hv2]
  · have hv2 : ¬ (env.ToUpper reqType = "POST" ∨ env.ToUpper reqType = "PUT" ∨
        env.ToUpper reqType = "PATCH" ∨ env.ToUpper reqType = "DELETE") :=
      fun h => hv ((reqNeedPayloadsAt_iff _).2 h)
    simp [hv, hv2]

/-- C8 amended, at a concrete input: verb `put` with a nil payload. -/
theorem C8_body_attached_iff_write_verb_and_non_nil_witness :
    buildRequest sampleEnv "put" "https://h/x" none none =
      .ok { Method := "PUT", URL := "https://h/x", Body := none,
            Header := defaultHeaders sampleEnv } ∧
    ((none : Option (List Byte)) = none →
      ({ Method := "PUT", URL := "https://h/x", Body := none,
         Header := defaultHeaders sampleEnv } : HttpReq).Body = none) :=
  ⟨by rfl,
   (C8_body_attached_iff_write_verb_and_non_nil sampleEnv "put" "https://h/x" none none _
      (by rfl)).2.2⟩

/-- C9: each convenience operation is `Request` with its fixed verb, the caller's headers when
given and the operation's default header set otherwise, no payload for `Head` and `Get` and the
given payload for the others, result and error unchanged. Hence on the request handed to the
transport the default entry (`Cache-Control: no-cache`, resp. `Content-Type: application/json`)
is present when the caller passes no headers, and every entry of a caller map is there with the
caller's value. -/
theorem C9_wrappers_are_Request (env : Env) (c : HttpClient) (url : String)
    (payloads : Option (List Byte)) (headers : Option Header) :
    c.Head env url headers =
      c.Request env "HEAD" url none (some (headers.getD [("Cache-Control", ["no-cache"])])) ∧
    c.Get env url headers =
      c.Request env "GET" url none (some (headers.getD [("Cache-Control", ["no-cache"])])) ∧
    c.Post env url payloads headers =
      c.Request env "POST" url payloads
        (some (headers.getD [("Content-Type", ["application/json"])])) ∧
    c.Put env url payloads headers =
      c.Request env "PUT" url payloads
        (some (headers.getD [("Content-Type", ["application/json"])])) ∧
    c.Patch env url payloads headers =
      c.Request env "PATCH" url payloads
        (some (headers.getD [("Content-Type", ["application/json"])])) ∧
    c.Delete env url payloads headers =
      c.Request env "DELETE" url payloads
        (some (headers.getD [("Content-Type", ["application/json"])])) ∧
    (∀ reqType httpReq,
      buildRequest env reqType url payloads
        (some ((none : Option Header).getD [("Cache-Control", ["no-cache"])])) = .ok httpReq →
      Header.get? httpReq.Header "Cache-Control" = some ["no-cache"]) ∧
    (∀ reqType httpReq,
      buildRequest env reqType url payloads
        (some ((none : Option Header).getD [("Content-Type", ["application/json"])])) =
          .ok httpReq →
      Header.get? httpReq.Header "Content-Type" = some ["application/json"]) ∧
    (∀ (H default : Header) (key : String) (val : List String) reqType httpReq,
      Header.WF H → Header.get? H key = some val →
      buildRequest env reqType url payloads (some ((some H).getD default)) = .ok httpReq →
      Header.get? httpReq.Header key = some val) := by
  refine ⟨?_, ?_, ?_, ?_, ?_, ?_, ?_, ?_, ?_⟩
  · unfold HttpClient.Head readHeaders
    cases headers <;> simp only [Option.getD] <;> split <;> simp_all
  · unfold HttpClient.Get readHeaders
    cases headers <;> simp only [Option.getD] <;> split <;> simp_all
  · unfold HttpClient.Post writeHeaders
    cases headers <;> simp only [Option.getD] <;> split <;> simp_all
  · unfold HttpClient.Put writeHeaders
    cases headers <;> simp only [Option.getD] <;> split <;> simp_all
  · unfold HttpClient.Patch writeHeaders
    cases headers <;> simp only [Option.getD] <;> split <;> simp_all
  · unfold HttpClient.Delete writeHeaders
    cases headers <;> simp only [Option.getD] <;> split <;> simp_all
  · intro reqType httpReq hreq
    have h := (buildRequest_header_get? env reqType url payloads _ httpReq (by
      intro H hH; cases hH; simp [Header.WF, Header.keys]) hreq).2 "Cache-Control"
    simpa [Header.get?] using h
  · intro reqType httpReq hreq
    have h := (buildRequest_header_get? env reqType url payloads _ httpReq (by
      intro H hH; cases hH; simp [Header.WF, Header.keys]) hreq).2 "Content-Type"
    simpa [Header.get?] using h
  · intro H default key val reqType httpReq hwf hget hreq
    have h := (buildRequest_header_get? env reqType url payloads _ httpReq (by
      intro H2 hH; cases hH; exact hwf) hreq).2 key
    simpa [hget] using h

/-- C6: whenever the client's `Get` returns a response without error, each accessor returns its
fixed error, whatever the body and whatever `json.Unmarshal` would make of it, when the status is
not 200, and returns exactly the outcome of decoding the body when the status is 200. -/
theorem C6_accessors_check_status (env : Env) (client : HttpClient) (res : HTTPResponse) :
    (client.Get env (env.urlBaseEndpoint ++ "/workspaces") none = .ok res →
      (res.Status ≠ 200 →
        getAllWorkspaces env client = .error "failed get workspaces, got non 200 status") ∧
      (res.Status = 200 → getAllWorkspaces env client = env.unmarshalWorkspaces res.Body)) ∧
    (client.Get env (env.urlBaseEndpoint ++ "/user") none = .ok res →
      (res.Status ≠ 200 →
        getCurrentUser env client = .error "failed get user, got non 200 status") ∧
      (res.Status = 200 → getCurrentUser env client = env.unmarshalUser res.Body)) ∧
    (∀ workspaceId userId start stop : String,
      client.Get env (timeEntriesUrl env workspaceId userId start stop) none = .ok res →
      (res.Status ≠ 200 →
        getTimeEntries env client workspaceId userId start stop =
          .error "failed get time-entries, got non 200 status") ∧
      (res.Status = 200 →
        getTimeEntries env client workspaceId userId start stop =
          env.unmarshalTimeEntries res.Body)) := by
  refine ⟨?_, ?_, ?_⟩
  · intro hget
    unfold getAllWorkspaces
    rw [hget]
    refine ⟨fun hs => by simp [hs], fun hs => ?_⟩
    simp only [hs, ne_eq, not_true_eq_false, if_false]
    cases env.unmarshalWorkspaces res.Body <;> rfl
  · intro hget
    unfold getCurrentUser
    rw [hget]
    refine ⟨fun hs => by simp [hs], fun hs => ?_⟩
    simp only [hs, ne_eq, not_true_eq_false, if_false]
    cases env.unmarshalUser res.Body <;> rfl
  · intro workspaceId userId start stop hget
    unfold getTimeEntries
    rw [hget]
    refine ⟨fun hs => by simp [hs], fun hs => ?_⟩
    simp only [hs, ne_eq, not_true_eq_false, if_false]
    cases env.unmarshalTimeEntries res.Body <;> rfl

/-- C6, at concrete inputs: a 401 answer whose body `sampleEnv` would decode without error still
gives the error, and a 200 answer gives what decoding gives. -/
theorem C6_accessors_check_status_witness :
    sampleEnv.unmarshalWorkspaces [91, 93] = .ok [] ∧
    getAllWorkspaces sampleEnv (sampleClient 401 [91, 93]) =
      .error "failed get workspaces, got non 200 status" ∧
    getTimeEntries sampleEnv (sampleClient 500 [91, 93]) "w1" "u1" "a" "b" =
      .error "failed get time-entries, got non 200 status" ∧
    getAllWorkspaces sampleEnv (sampleClient 200 [91, 93]) =
      sampleEnv.unmarshalWorkspaces [91, 93] ∧
    getCurrentUser sampleEnv (sampleClient 200 [91, 93]) = sampleEnv.unmarshalUser [91, 93] :=
  ⟨rfl,
   ((C6_accessors_check_status sampleEnv (sampleClient 401 [91, 93])
      { Status := 401, Headers := [], Body := [91, 93] }).1 (by rfl)).1 (by decide),
   (((C6_accessors_check_status sampleEnv (sampleClient 500 [91, 93])
      { Status := 500, Headers := [], Body := [91, 93] }).2.2 "w1" "u1" "a" "b") (by rfl)).1
      (by decide),
   ((C6_accessors_check_status sampleEnv (sampleClient 200 [91, 93])
      { Status := 200, Headers := [], Body := [91, 93] }).1 (by rfl)).2 (by decide),
   ((C6_accessors_check_status sampleEnv (sampleClient 200 [91, 93])
      { Status := 200, Headers := [], Body := [91, 93] }).2.1 (by rfl)).2 (by decide)⟩

/-- C10, as stated, fails: for the entries `Build`, `Build`, `Test` the task list is
`Build`, `Test`, and the lines printed are `- Test` then `- Build`; the first printed line is
not the first distinct description. -/
theorem C10_counterexample_printed_order :
    buildTaskList [entryOf "Build", entryOf "Build", entryOf "Test"] = ["Build", "Test"] ∧
    SliceStable ["Build", "Test"] taskLess = ["Test", "Build"] ∧
    printedTasks [entryOf "Build", entryOf "Build", entryOf "Test"] = ["- Test", "- Build"] ∧
    (printedTasks [entryOf "Build", entryOf "Build", entryOf "Test"])[0]? ≠
      some ("- " ++ "Build") :=
  ⟨by decide, by decide, by decide, by decide⟩

/-- C10, amended: the deduplication loop appends each new description after those seen earlier,
and `sort.SliceStable` with the comparator `i > j` on positions reverses that list, so the task
descriptions are printed in reverse first-seen order: the `i`-th printed line, counted from the
last one, is the `i`-th distinct description of the input. -/
theorem C10_printed_in_reverse_first_seen_order (timeEntries : List TimeEntry) :
    (∀ entry : TimeEntry, buildTaskList (timeEntries ++ [entry]) =
      if entry.Description ∈ buildTaskList timeEntries then buildTaskList timeEntries
      else buildTaskList timeEntries ++ [entry.Description]) ∧
    SliceStable (buildTaskList timeEntries) taskLess = (buildTaskList timeEntries).reverse ∧
    printedTasks timeEntries =
      ((buildTaskList timeEntries).map (fun task => "- " ++ task)).reverse ∧
    (printedTasks timeEntries).length = (buildTaskList timeEntries).length ∧
    ∀ i : Nat, i < (buildTaskList timeEntries).length →
      (printedTasks timeEntries)[(buildTaskList timeEntries).length - 1 - i]? =
        ((buildTaskList timeEntries)[i]?).map (fun task => "- " ++ task) := by
  have hsort : SliceStable (buildTaskList timeEntries) taskLess =
      (buildTaskList timeEntries).reverse :=
    SliceStable_index_descending taskLess (fun _ _ _ => rfl) _
  have hprint : printedTasks timeEntries =
      ((buildTaskList timeEntries).map (fun task => "- " ++ task)).reverse := by
    unfold printedTasks
    rw [hsort, List.map_reverse]
  refine ⟨?_, hsort, hprint, ?_, ?_⟩
  · intro entry
    unfold buildTaskList
    rw [List.foldl_append, List.foldl_cons, List.foldl_nil, dedupStep]
    by_cases hm : entry.Description ∈ List.foldl dedupStep [] timeEntries
    · rw [if_pos ((hasDuplicate_iff _ _).2 hm), if_pos hm]
    · rw [if_neg (fun h => hm ((hasDuplicate_iff _ _).1 h)), if_neg hm]
  · rw [hprint]; simp
  · intro i hi
    rw [hprint, List.getElem?_reverse (by simp; omega)]
    simp only [List.length_map]
    have e : (buildTaskList timeEntries).length - 1 -
        ((buildTaskList timeEntries).length - 1 - i) = i := by omega
    rw [e, List.getElem?_map]

/-- C10 amended, at a concrete input: three distinct descriptions among five entries. -/
theorem C10_printed_in_reverse_first_seen_order_witness :
    buildTaskList [entryOf "a", entryOf "b", entryOf "a", entryOf "", entryOf "b"] =
      ["a", "b", ""] ∧
    printedTasks [entryOf "a", entryOf "b", entryOf "a", entryOf "", entryOf "b"] =
      ["- ", "- b", "- a"] ∧
    (printedTasks [entryOf "a", entryOf "b", entryOf "a", entryOf "", entryOf "b"])[
        (buildTaskList [entryOf "a", entryOf "b", entryOf "a", entryOf "",
          entryOf "b"]).length - 1 - 0]? =
      ((buildTaskList [entryOf "a", entryOf "b", entryOf "a", entryOf "", entryOf "b"])[0]?).map
        (fun task => "- " ++ task) :=
  ⟨by decide, by decide,
   (C10_printed_in_reverse_first_seen_order
      [entryOf "a", entryOf "b", entryOf "a", entryOf "", entryOf "b"]).2.2.2.2 0 (by decide)⟩

set_option maxRecDepth 100000 in
/-- C7, as stated, fails. On a machine in the zone `newYork`, at 2024-11-02T23:30:00Z (19:30
local time, 2 November in both calendars) and with day offset 1, `AddDate` gives 19:30 local time
on 3 November, which is standard time and 00:30 on 4 November in UTC: the window computed is
4 November, two days from the reference. On a machine in UTC, at the same instant and with the
largest day offset an `int` holds, the sum `day + days` wraps around and the window computed is
1 November, the day before the reference. -/
theorem C7_counterexample_zone_transition :
    sampleNow.FormatRFC3339 = "2024-11-02T19:30:00-04:00" ∧
    sampleNow.UTC.FormatRFC3339 = "2024-11-02T23:30:00Z" ∧
    (sampleNow.AddDate 0 0 1).FormatRFC3339 = "2024-11-03T19:30:00-05:00" ∧
    (timeToGet sampleNow 1).FormatRFC3339 = "2024-11-04T00:30:00Z" ∧
    startDay sampleNow 1 = "2024-11-04T00:00:00Z" ∧
    endDay sampleNow 1 = "2024-11-04T23:59:59Z" ∧
    sampleNow.Date = (2024, 11, 2) ∧ sampleNow.UTC.Date = (2024, 11, 2) ∧
    (timeToGet sampleNow 1).Date = (2024, 11, 4) ∧
    (timeToGet sampleNow 1).unix ≠ sampleNow.unix + 1 * 86400 ∧
    sampleNowUTC.FormatRFC3339 = "2024-11-02T23:30:00Z" ∧
    startDay sampleNowUTC 9223372036854775807 = "2024-11-01T00:00:00Z" ∧
    endDay sampleNowUTC 9223372036854775807 = "2024-11-01T23:59:59Z" := by
  decide

/-- C7, amended: for every reference time and every day offset for which `timeToGet` (the time
`AddDate(0, 0, day)` gives in the reference's location, read in UTC) lies in the years 0000 to
9999, the start and end timestamps are in UTC, fall on the UTC calendar day of `timeToGet` and
enclose it, with times of day 00:00:00 and 23:59:59, and are rendered as the 20 characters
`YYYY-MM-DDT00:00:00Z` and `YYYY-MM-DDT23:59:59Z`; when moreover the reference lies in those
years, its location has a constant offset (UTC in particular) and the day offset is at most
4000000 either way, `timeToGet` is exactly `day` times 24 hours after the reference, so that day
is the reference's UTC day shifted by `day` days. -/
theorem C7_day_window (now : Time) (day : Int)
    (hns : 0 ≤ now.nsec ∧ now.nsec < 1000000000)
    (hres : -62167219200 ≤ (timeToGet now day).unix ∧
      (timeToGet now day).unix ≤ 253402300799) :
    (timeToGet now day).loc = UTC ∧
    (0 ≤ (timeToGet now day).Year ∧ (timeToGet now day).Year ≤ 9999) ∧
    (startTime now day).loc = UTC ∧ (endTime now day).loc = UTC ∧
    (startTime now day).Date = (timeToGet now day).Date ∧
    (endTime now day).Date = (timeToGet now day).Date ∧
    (startTime now day).Clock = (0, 0, 0) ∧ (endTime now day).Clock = (23, 59, 59) ∧
    (startTime now day).unix ≤ (timeToGet now day).unix ∧
    (timeToGet now day).unix ≤ (endTime now day).unix ∧
    (endTime now day).unix = (startTime now day).unix + 86399 ∧
    startDay now day = rfc3339UTC (timeToGet now day).Year (timeToGet now day).Month
      (timeToGet now day).Day 0 0 0 ∧
    endDay now day = rfc3339UTC (timeToGet now day).Year (timeToGet now day).Month
      (timeToGet now day).Day 23 59 59 ∧
    (startDay now day).length = 20 ∧ (endDay now day).length = 20 ∧
    (∀ offset : Int, now.loc = fixedZone offset → -100000 ≤ offset → offset ≤ 100000 →
      -62167219200 ≤ now.unix → now.unix ≤ 253402300799 →
      -4000000 ≤ day → day ≤ 4000000 →
      (timeToGet now day).unix = now.unix + day * 86400 ∧
      (timeToGet now day).abs / secondsPerDay = now.UTC.abs / secondsPerDay + day) := by
  have hloc : (timeToGet now day).loc = UTC := rfl
  have hn : 0 ≤ (timeToGet now day).nsec ∧ (timeToGet now day).nsec < 1000000000 := by
    have h : (timeToGet now day).nsec = now.nsec := AddDate_nsec now day hns
    rw [h]; exact hns
  have habs : (timeToGet now day).abs = (timeToGet now day).unix + unixToAbsolute :=
    abs_UTC _ hloc hres
  obtain ⟨f1, f2, f3, f4, f5, f6⟩ := dateFields_range (timeToGet now day) hloc hres
  have gy : 0 ≤ (timeToGet now day).Date.1 ∧ (timeToGet now day).Date.1 ≤ 9999 := ⟨f1, f2⟩
  have gm : 0 ≤ (timeToGet now day).Date.2.1 ∧ (timeToGet now day).Date.2.1 < 100 :=
    ⟨le_trans (by decide) f3, lt_of_le_of_lt f4 (by decide)⟩
  have gd : 0 ≤ (timeToGet now day).Date.2.2 ∧ (timeToGet now day).Date.2.2 < 100 :=
    ⟨le_trans (by decide) f5, lt_of_le_of_lt f6 (by decide)⟩
  obtain ⟨s1, s3, s4, s5⟩ := dayTime_spec (timeToGet now day) hloc hn hres 0 0 0
    (by omega) (by omega) (by omega)
  obtain ⟨e1, e3, e4, e5⟩ := dayTime_spec (timeToGet now day) hloc hn hres 23 59 59
    (by omega) (by omega) (by omega)
  have hstart : startDay now day = rfc3339UTC (timeToGet now day).Year
      (timeToGet now day).Month (timeToGet now day).Day 0 0 0 := by
    unfold startDay startTime
    rw [FormatRFC3339_UTC _ s1 (by rw [s4]; exact gy) (by rw [s4]; exact gm)
      (by rw [s4]; exact gd) (by rw [s5]; decide) (by rw [s5]; decide)
      (by rw [s5]; decide), s4, s5]
    rfl
  have hend : endDay now day = rfc3339UTC (timeToGet now day).Year
      (timeToGet now day).Month (timeToGet now day).Day 23 59 59 := by
    unfold endDay endTime
    rw [FormatRFC3339_UTC _ e1 (by rw [e4]; exact gy) (by rw [e4]; exact gm)
      (by rw [e4]; exact gd) (by rw [e5]; decide) (by rw [e5]; decide)
      (by rw [e5]; decide), e4, e5]
    rfl
  refine ⟨hloc, ⟨f1, f2⟩, s1, e1, s4, e4, s5, e5, ?_, ?_, ?_, hstart, hend, ?_, ?_, ?_⟩
  · show (startTime now day).unix ≤ _
    unfold startTime
    rw [s3, habs]
    simp only [secondsPerDay, secondsPerHour, secondsPerMinute]
    omega
  · show _ ≤ (endTime now day).unix
    unfold endTime
    rw [e3, habs]
    simp only [secondsPerDay, secondsPerHour, secondsPerMinute]
    omega
  · unfold startTime endTime
    rw [s3, e3]
    simp only [secondsPerDay, secondsPerHour, secondsPerMinute]
    omega
  · rw [hstart]; exact rfc3339UTC_length _ _ _ _ _ _
  · rw [hend]; exact rfc3339UTC_length _ _ _ _ _ _
  · intro offset ho o1 o2 u1 u2 d1 d2
    have hfix : (timeToGet now day).unix = now.unix + day * 86400 :=
      AddDate_fixedZone now day offset ho hns ⟨u1, u2⟩ ⟨o1, o2⟩ ⟨d1, d2⟩
    refine ⟨hfix, ?_⟩
    have hnow : now.UTC.abs = now.UTC.unix + unixToAbsolute :=
      abs_UTC now.UTC rfl ⟨u1, u2⟩
    have hnu : now.UTC.unix = now.unix := rfl
    rw [habs, hfix, hnow, hnu]
    simp only [secondsPerDay, secondsPerHour, secondsPerMinute]
    omega

set_option maxRecDepth 100000 in
/-- C7 amended, at a concrete input: the reference 2024-11-02T23:30:00Z on a machine in UTC,
400 days back. -/
theorem C7_day_window_witness :
    (0 ≤ sampleNowUTC.nsec ∧ sampleNowUTC.nsec < 1000000000) ∧
    (-62167219200 ≤ (timeToGet sampleNowUTC (-400)).unix ∧
      (timeToGet sampleNowUTC (-400)).unix ≤ 253402300799) ∧
    startDay sampleNowUTC (-400) = "2023-09-29T00:00:00Z" ∧
    endDay sampleNowUTC (-400) = "2023-09-29T23:59:59Z" ∧
    (startTime sampleNowUTC (-400)).Clock = (0, 0, 0) ∧
    (timeToGet sampleNowUTC (-400)).unix = sampleNowUTC.unix + (-400) * 86400 :=
  have h := C7_day_window sampleNowUTC (-400) (by decide) (by decide)
  ⟨by decide, by decide, by decide, by decide, h.2.2.2.2.2.2.1,
   (h.2.2.2.2.2.2.2.2.2.2.2.2.2.2.2 0 rfl (by decide) (by decide) (by decide) (by decide)
      (by decide) (by decide)).1⟩

end ClockifyReporter
